import Mathlib

/-!
Shallow embedding of the event-correlation core of `node-latency-for-k8s`
(`pkg/latency/latency.go` and `pkg/sources/sources.go`), together with
theorems settling the specification claims about it.

Modelling conventions:

* Go `time.Time` values are modelled as `Int` microseconds since the epoch.
  Every timestamp the registered sources produce is an integral number of
  microseconds (log timestamps parse at second resolution, cloud API
  timestamps at millisecond resolution), and the only comparison the core
  performs is on `Time.UnixMicro()` values, so microsecond resolution is
  exact for the code under study.  `time.Duration` differences (`Timing.T`)
  are therefore also in microseconds.
* Go `error` values are modelled as `Option String` (`none` = nil error);
  `multierr.Append` keeps a nil result exactly when both arguments are nil.
* A source's `Find(event)` result for one pass is modelled as the pair
  `(List FindResult × Option String)` it returns; the `Measure` pass is a
  function of the registered events together with those per-event outcomes.
* `sort.Slice` (Go 1.19, pdqsort) guarantees that the slice is a permutation
  of the input ordered by the supplied comparator, but it is NOT stable.
  `sortTimings` below models the sorted-permutation contract with a stable
  insertion sort, which computes exactly what Go's `sort.Slice` computes for
  slices of at most 12 elements (Go dispatches those to its stable
  `insertionSort_func`).  The exact runtime algorithm, including its unstable
  behaviour on larger slices, is embedded separately as `goSortSlice`.
* `Measurer.Measure` evaluates `timings[0]` on the slice of collected
  timings; on an empty slice this panics.  The embedded `measure?` returns
  `none` exactly at that panic point, `some` of the timing list otherwise.
  Measurement metadata (`getMetadata`) is best-effort data that no claim
  touches and is omitted from the model.
-/

namespace NLK

/-- Model of `sources.Event` (pkg/sources/sources.go).  The `FindFn`,
`CommentFn` and bound `Src` fields live in the per-pass find outcomes of the
model rather than on the event record. -/
structure Event where
  name : String
  metric : String
  matchSelector : String
  terminal : Bool
  srcName : String
deriving DecidableEq, Repr, Inhabited

/-- Model of `sources.FindResult`: one raw match produced by a source,
with its extracted timestamp (microseconds) and per-result error. -/
structure FindResult where
  line : String
  timestamp : Int
  comment : String
  err : Option String
deriving DecidableEq, Repr, Inhabited

/-- Model of `sources.Timing`: a finalized, correlated instance of an event.
`t` is the normalized relative offset (`Timing.T`), in microseconds. -/
structure Timing where
  event : Event
  timestamp : Int
  t : Int
  comment : String
  error : Option String
deriving DecidableEq, Repr, Inhabited

/-- Model of `multierr.Append err result.Err`: nil iff both are nil. -/
def multierrAppend : Option String → Option String → Option String
  | none, none => none
  | some e, none => some e
  | none, some e => some e
  | some a, some b => some (a ++ "; " ++ b)

/-- Match selector constant `sources.EventMatchSelectorFirst`. -/
def EventMatchSelectorFirst : String := "first"

/-- Match selector constant `sources.EventMatchSelectorLast`. -/
def EventMatchSelectorLast : String := "last"

/-- Match selector constant `sources.EventMatchSelectorAll`. -/
def EventMatchSelectorAll : String := "all"

/-- Model of `sources.SelectMatches` (pkg/sources/sources.go:88-101):
empty input yields nil; `first` keeps the head, `last` keeps the final
element, `all` (and any unrecognized selector) keeps everything. -/
def SelectMatches (results : List FindResult) (matchSelector : String) : List FindResult :=
  if results.isEmpty then []
  else if matchSelector = EventMatchSelectorFirst then [results.headI]
  else if matchSelector = EventMatchSelectorLast then [results.getLastI]
  else results

/-- A pass input: each registered event in registration order, paired with
the outcome `(results, err)` of its bound source's `Find` call this pass. -/
abbrev PassInput := List (Event × (List FindResult × Option String))

/-- The raw timing list built by the first loop of `Measurer.Measure`
(latency.go:208-222): for each event in registration order, one `Timing`
per returned `FindResult`, carrying the merged source-level and per-result
error.  The source's `if len(results) == 0` branch (latency.go:211-213)
replaces an empty slice by an empty slice — a no-op — so an event whose
`Find` returns zero results contributes zero timings. -/
def rawTimings (evs : PassInput) : List Timing :=
  evs.flatMap fun p =>
    (p.2.1).map fun r =>
      { event := p.1, timestamp := r.timestamp, t := 0,
        comment := r.comment, error := multierrAppend p.2.2 r.err }

/-- Comparator of `Measurer.Measure`'s `sort.Slice` call (latency.go:224-226):
strictly less on `UnixMicro()` values. -/
def timingLess (a b : Timing) : Bool := a.timestamp < b.timestamp

/-- Insert a timing into an already sorted list, after any element it does
not compare strictly below — the placement Go's `insertionSort_func` gives
an appended element. -/
def insertTiming (x : Timing) : List Timing → List Timing
  | [] => [x]
  | y :: ys => if timingLess x y then x :: y :: ys else y :: insertTiming x ys

/-- Model of the `sort.Slice` call in `Measurer.Measure`: the sorted
permutation of the timings under `timingLess`, realized as a stable
insertion sort (identical to Go's output for at most 12 timings; Go's
exact algorithm for all sizes is `goSortSlice` below). -/
def sortTimings (l : List Timing) : List Timing :=
  l.foldl (fun acc x => insertTiming x acc) []

/-- Index of the last timing whose event is terminal, if any
(`lo.FindLastIndexOf` at latency.go:229-231). -/
def lastTerminalIdx : List Timing → Option Nat
  | [] => none
  | t :: ts =>
    match lastTerminalIdx ts with
    | some i => some (i + 1)
    | none => if t.event.terminal then some 0 else none

/-- Truncation step of `Measurer.Measure` (latency.go:228-233): drop
everything after the last terminal timing, if one exists. -/
def truncateTerminal (l : List Timing) : List Timing :=
  match lastTerminalIdx l with
  | some i => l.take (i + 1)
  | none => l

/-- Anchor selection of `Measurer.Measure` (latency.go:234-241): the first
timing with a nil error, defaulting to `timings[0]`.  Only meaningful on a
non-empty list; `measure?` handles the empty case. -/
def firstSuccessfulTiming (l : List Timing) : Timing :=
  match l.find? (fun t => t.error.isNone) with
  | some t => t
  | none => l.headI

/-- The sorted, terminal-truncated timing list of a `Measure` pass, before
offset normalization (the state of `timings` at latency.go:234). -/
def preTimings (evs : PassInput) : List Timing :=
  truncateTerminal (sortTimings (rawTimings evs))

/-- Offset normalization of `Measurer.Measure` (latency.go:242-245): set
each timing's `T` to its timestamp minus the anchor's. -/
def applyOffsets (l : List Timing) : List Timing :=
  l.map fun t => { t with t := t.timestamp - (firstSuccessfulTiming l).timestamp }

/-- Model of `Measurer.Measure` (latency.go:207-252): build raw timings,
sort chronologically, truncate after the last terminal timing, pick the
anchor and normalize offsets.  Returns `none` exactly where the Go code
panics: `firstSuccessfulTiming := timings[0]` indexes an empty slice
whenever no event produced a result. -/
def measure? (evs : PassInput) : Option (List Timing) :=
  match preTimings evs with
  | [] => none
  | t :: ts => some (applyOffsets (t :: ts))

/-!
Embedding of Go 1.19's `sort.Slice` (`src/sort/zsortfunc.go`, pdqsort),
exactly as the runtime executes it for the comparator at latency.go:224-226.
The slice is a `List Timing` indexed by `Nat`; out-of-range reads return
`default` (they do not occur on the index ranges the algorithm touches).
Loops are written with an explicit fuel argument; every call site passes
fuel that dominates the loop's iteration count, so the embedded functions
compute exactly what the Go loops compute.  `sortTimings` above is the
sorted-permutation contract of `sort.Slice`; `goSortSlice` here is the
bit-for-bit runtime algorithm, used to settle the tie-break question.
-/

/-- Read `data[i]` of the modelled slice. -/
def aGet (l : List Timing) (i : Nat) : Timing :=
  l.getD i default

/-- `data.Swap(i, j)` of the modelled slice. -/
def aSwap (l : List Timing) (i j : Nat) : List Timing :=
  (l.set i (aGet l j)).set j (aGet l i)

/-- `data.Less(i, j)`: the `sort.Slice` comparator of `Measurer.Measure`,
strictly less on `UnixMicro()` values. -/
def aLess (l : List Timing) (i j : Nat) : Bool :=
  timingLess (aGet l i) (aGet l j)

/-- Inner loop of Go's `insertionSort_func`: shift `data[j]` left while it
compares strictly below its predecessor. -/
def insertionSortInner (a : Nat) : Nat → Nat → List Timing → List Timing
  | 0, _, l => l
  | fuel + 1, j, l =>
    if a < j && aLess l j (j - 1) then
      insertionSortInner a fuel (j - 1) (aSwap l j (j - 1))
    else l

/-- Outer loop of Go's `insertionSort_func` over `i = a+1 .. b-1`. -/
def insertionSortOuter (a b : Nat) : Nat → Nat → List Timing → List Timing
  | 0, _, l => l
  | fuel + 1, i, l =>
    if i < b then insertionSortOuter a b fuel (i + 1) (insertionSortInner a (b + 1) i l)
    else l

/-- Go's `insertionSort_func(data, a, b)`. -/
def insertionSortGo (a b : Nat) (l : List Timing) : List Timing :=
  insertionSortOuter a b (b + 2) (a + 1) l

/-- Go's `siftDown_func(data, lo, hi, first)` with `root` threaded. -/
def siftDownGo (hi first : Nat) : Nat → Nat → List Timing → List Timing
  | 0, _, l => l
  | fuel + 1, root, l =>
    let child := 2 * root + 1
    if child ≥ hi then l
    else
      let child :=
        if child + 1 < hi && aLess l (first + child) (first + child + 1) then child + 1
        else child
      if !aLess l (first + root) (first + child) then l
      else siftDownGo hi first fuel child (aSwap l (first + root) (first + child))

/-- Heap-building loop of Go's `heapSort_func`: `i = (hi-1)/2` down to 0. -/
def heapSortBuild (hi first : Nat) : Nat → Nat → List Timing → List Timing
  | 0, _, l => l
  | fuel + 1, i, l =>
    let l := siftDownGo hi first (hi + 1) i l
    if i = 0 then l else heapSortBuild hi first fuel (i - 1) l

/-- Pop loop of Go's `heapSort_func`: `i = hi-1` down to 0. -/
def heapSortPop (first : Nat) : Nat → Nat → List Timing → List Timing
  | 0, _, l => l
  | fuel + 1, i, l =>
    let l := siftDownGo i first (i + 1) 0 (aSwap l first (first + i))
    if i = 0 then l else heapSortPop first fuel (i - 1) l

/-- Go's `heapSort_func(data, a, b)` (only reached when `b - a > 12`, so
`hi ≥ 1`; the empty guard mirrors Go's loop simply not running). -/
def heapSortGo (a b : Nat) (l : List Timing) : List Timing :=
  let first := a
  let hi := b - a
  if hi = 0 then l
  else heapSortPop first (hi + 1) (hi - 1) (heapSortBuild hi first (hi + 1) ((hi - 1) / 2) l)

/-- Advancing scan of Go's `partialInsertionSort_func`:
`for i < b && !data.Less(i, i-1) : i++`. -/
def piAdvance (b : Nat) (l : List Timing) : Nat → Nat → Nat
  | 0, i => i
  | fuel + 1, i => if i < b && !aLess l i (i - 1) then piAdvance b l fuel (i + 1) else i

/-- Left shift loop of `partialInsertionSort_func`:
`for j := i-1; j >= 1; j--` with an early break. -/
def piShiftLeft : Nat → Nat → List Timing → List Timing
  | 0, _, l => l
  | fuel + 1, j, l =>
    if 1 ≤ j && aLess l j (j - 1) then piShiftLeft fuel (j - 1) (aSwap l j (j - 1))
    else l

/-- Right shift loop of `partialInsertionSort_func`:
`for j := i+1; j < b; j++` with an early break. -/
def piShiftRight (b : Nat) : Nat → Nat → List Timing → List Timing
  | 0, _, l => l
  | fuel + 1, j, l =>
    if j < b && aLess l j (j - 1) then piShiftRight b fuel (j + 1) (aSwap l j (j - 1))
    else l

/-- Go's `partialInsertionSort_func(data, a, b)`: at most `maxSteps = 5`
adjacent out-of-order pairs are repaired; returns whether the slice ended
up sorted.  `shortestShifting = 50`. -/
def piSortGo (a b : Nat) : Nat → Nat → List Timing → Bool × List Timing
  | 0, _, l => (false, l)
  | steps + 1, i, l =>
    let i := piAdvance b l (b + 2) i
    if i = b then (true, l)
    else if b - a < 50 then (false, l)
    else
      let l := aSwap l i (i - 1)
      let l := if i - a ≥ 2 then piShiftLeft i (i - 1) l else l
      let l := if b - i ≥ 2 then piShiftRight b (b + 2) (i + 1) l else l
      piSortGo a b steps i l

/-- Upward scan of Go's `partition_func`: `for i <= j && data.Less(i, a) : i++`. -/
def scanUp (l : List Timing) (a j : Nat) : Nat → Nat → Nat
  | 0, i => i
  | fuel + 1, i => if i ≤ j && aLess l i a then scanUp l a j fuel (i + 1) else i

/-- Downward scan of Go's `partition_func`: `for i <= j && !data.Less(j, a) : j--`. -/
def scanDown (l : List Timing) (a i : Nat) : Nat → Nat → Nat
  | 0, j => j
  | fuel + 1, j => if i ≤ j && !aLess l j a then scanDown l a i fuel (j - 1) else j

/-- Main exchange loop of Go's `partition_func`. -/
def partitionLoop (a b : Nat) : Nat → Nat → Nat → List Timing → Nat × List Timing
  | 0, _, j, l => (j, l)
  | fuel + 1, i, j, l =>
    let i := scanUp l a j (b + 2) i
    let j := scanDown l a i (b + 2) j
    if i > j then (j, l)
    else partitionLoop a b fuel (i + 1) (j - 1) (aSwap l i j)

/-- Go's `partition_func(data, a, b, pivot)`: returns the new pivot
position, whether the slice was already partitioned, and the slice. -/
def partitionGo (a b pivot : Nat) (l : List Timing) : Nat × Bool × List Timing :=
  let l := aSwap l a pivot
  let i := scanUp l a (b - 1) (b + 2) (a + 1)
  let j := scanDown l a i (b + 2) (b - 1)
  if i > j then (j, true, aSwap l j a)
  else
    let l := aSwap l i j
    let (j2, l) := partitionLoop a b (b + 2) (i + 1) (j - 1) l
    (j2, false, aSwap l j2 a)

/-- Upward scan of Go's `partitionEqual_func`: `for i <= j && !data.Less(a, i) : i++`. -/
def scanUpEq (l : List Timing) (a j : Nat) : Nat → Nat → Nat
  | 0, i => i
  | fuel + 1, i => if i ≤ j && !aLess l a i then scanUpEq l a j fuel (i + 1) else i

/-- Downward scan of Go's `partitionEqual_func`: `for i <= j && data.Less(a, j) : j--`. -/
def scanDownEq (l : List Timing) (a i : Nat) : Nat → Nat → Nat
  | 0, j => j
  | fuel + 1, j => if i ≤ j && aLess l a j then scanDownEq l a i fuel (j - 1) else j

/-- Exchange loop of Go's `partitionEqual_func`; returns the final `i`. -/
def partitionEqualLoop (a b : Nat) : Nat → Nat → Nat → List Timing → Nat × List Timing
  | 0, i, _, l => (i, l)
  | fuel + 1, i, j, l =>
    let i := scanUpEq l a j (b + 2) i
    let j := scanDownEq l a i (b + 2) j
    if i > j then (i, l)
    else partitionEqualLoop a b fuel (i + 1) (j - 1) (aSwap l i j)

/-- Go's `partitionEqual_func(data, a, b, pivot)`. -/
def partitionEqualGo (a b pivot : Nat) (l : List Timing) : Nat × List Timing :=
  partitionEqualLoop a b (b + 2) (a + 1) (b - 1) (aSwap l a pivot)

/-- Go's `reverseRange_func(data, a, b)` with `i`, `j` threaded. -/
def reverseRangeGo : Nat → Nat → Nat → List Timing → List Timing
  | 0, _, _, l => l
  | fuel + 1, i, j, l =>
    if i < j then reverseRangeGo fuel (i + 1) (j - 1) (aSwap l i j) else l

/-- One step of Go's sort-package `xorshift` generator on a 64-bit state. -/
def xorshiftNext (r : Nat) : Nat :=
  let r := (r ^^^ (r <<< 13)) % 2 ^ 64
  let r := r ^^^ (r >>> 7)
  (r ^^^ (r <<< 17)) % 2 ^ 64

/-- Go's `bits.Len` on a non-negative word. -/
def bitsLen (n : Nat) : Nat :=
  if n = 0 then 0 else Nat.log2 n + 1

/-- Go's sort-package `nextPowerOfTwo(length)` = `1 << bits.Len(length)`. -/
def nextPowerOfTwoGo (length : Nat) : Nat :=
  2 ^ bitsLen length

/-- Go's `breakPatterns_func(data, a, b)`: scatter three elements using the
xorshift stream seeded with the length (the three loop iterations are
unrolled, threading the generator state). -/
def breakPatternsGo (a b : Nat) (l : List Timing) : List Timing :=
  let length := b - a
  if length ≥ 8 then
    let modulus := nextPowerOfTwoGo length
    let idx := a + length / 4 * 2 - 1
    let r0 := xorshiftNext length
    let o0 := r0 &&& (modulus - 1)
    let o0 := if o0 ≥ length then o0 - length else o0
    let l := aSwap l (idx - 1) (a + o0)
    let r1 := xorshiftNext r0
    let o1 := r1 &&& (modulus - 1)
    let o1 := if o1 ≥ length then o1 - length else o1
    let l := aSwap l idx (a + o1)
    let r2 := xorshiftNext r1
    let o2 := r2 &&& (modulus - 1)
    let o2 := if o2 ≥ length then o2 - length else o2
    aSwap l (idx + 1) (a + o2)
  else l

/-- Go's `sortedHint`. -/
inductive SortedHint where
  | unknown
  | increasing
  | decreasing
deriving DecidableEq, Repr

/-- Go's `order2_func`: order two indices by the data they point at,
counting a swap when they invert. -/
def order2Go (l : List Timing) (a b swaps : Nat) : Nat × Nat × Nat :=
  if aLess l b a then (b, a, swaps + 1) else (a, b, swaps)

/-- Go's `median_func`: index of the median of three, threading the swap
counter. -/
def medianGo (l : List Timing) (a b c swaps : Nat) : Nat × Nat :=
  let (a, b, swaps) := order2Go l a b swaps
  let (b, _, swaps) := order2Go l b c swaps
  let (_, b, swaps) := order2Go l a b swaps
  (b, swaps)

/-- Go's `medianAdjacent_func`: median of `data[a-1]`, `data[a]`, `data[a+1]`. -/
def medianAdjacentGo (l : List Timing) (a swaps : Nat) : Nat × Nat :=
  medianGo l (a - 1) a (a + 1) swaps

/-- Go's `choosePivot_func(data, a, b)`: median-of-medians pivot choice
with `shortestNinther = 50` and `maxSwaps = 12`. -/
def choosePivotGo (a b : Nat) (l : List Timing) : Nat × SortedHint :=
  let len := b - a
  let i := a + len / 4 * 1
  let j := a + len / 4 * 2
  let k := a + len / 4 * 3
  let (j, swaps) :=
    if len ≥ 8 then
      let (i, j, k, swaps) :=
        if len ≥ 50 then
          let (i, s1) := medianAdjacentGo l i 0
          let (j, s2) := medianAdjacentGo l j s1
          let (k, s3) := medianAdjacentGo l k s2
          (i, j, k, s3)
        else (i, j, k, 0)
      medianGo l i j k swaps
    else (j, 0)
  if swaps = 0 then (j, SortedHint.increasing)
  else if swaps = 12 then (j, SortedHint.decreasing)
  else (j, SortedHint.unknown)

/-- Go's `pdqsort_func(data, a, b, limit)`.  The `for` loop and the
recursive calls both run inside the same fuel; a loop continuation shrinks
`b - a` by at least one and a recursive call at least halves it, so fuel
`length + 1` at the top level dominates every path.  A fresh recursive
call re-enters with `wasBalanced = wasPartitioned = true`, exactly like
Go's local variable initialization; `maxInsertion = 12`. -/
def pdqsortGo : Nat → Nat → Nat → Nat → Bool → Bool → List Timing → List Timing
  | 0, _, _, _, _, _, l => l
  | fuel + 1, a, b, limit, wasBalanced, wasPartitioned, l =>
    let length := b - a
    if length ≤ 12 then insertionSortGo a b l
    else if limit = 0 then heapSortGo a b l
    else
      let (l, limit) := if !wasBalanced then (breakPatternsGo a b l, limit - 1) else (l, limit)
      let (pivot, hint) := choosePivotGo a b l
      let (l, pivot, hint) :=
        if hint = SortedHint.decreasing then
          (reverseRangeGo (b + 2) a (b - 1) l, (b - 1) - (pivot - a), SortedHint.increasing)
        else (l, pivot, hint)
      let pis :=
        if wasBalanced && wasPartitioned && decide (hint = SortedHint.increasing) then
          piSortGo a b 5 (a + 1) l
        else (false, l)
      if pis.1 then pis.2
      else
        let l := pis.2
        if 0 < a && !aLess l (a - 1) pivot then
          let (mid, l) := partitionEqualGo a b pivot l
          pdqsortGo fuel mid b limit wasBalanced wasPartitioned l
        else
          let (mid, alreadyPartitioned, l) := partitionGo a b pivot l
          let wasPartitioned := alreadyPartitioned
          let leftLen := mid - a
          let rightLen := b - mid
          let balanceThreshold := length / 8
          let wasBalanced := decide (min leftLen rightLen ≥ balanceThreshold)
          if leftLen < rightLen then
            let l := pdqsortGo fuel a mid limit true true l
            pdqsortGo fuel (mid + 1) b limit wasBalanced wasPartitioned l
          else
            let l := pdqsortGo fuel (mid + 1) b limit true true l
            pdqsortGo fuel a mid limit wasBalanced wasPartitioned l

/-- Go 1.19's `sort.Slice(timings, less)`: `pdqsort_func` over the whole
slice with `limit = bits.Len(uint(length))`. -/
def goSortSlice (l : List Timing) : List Timing :=
  pdqsortGo (l.length + 1) 0 l.length (bitsLen l.length) true true l

/-- `Measurer.Measure` with the `sort.Slice` step embedded as the exact
runtime algorithm `goSortSlice` instead of the stable sorted-permutation
model; everything else is identical to `measure?`. -/
def measureGo? (evs : PassInput) : Option (List Timing) :=
  match truncateTerminal (goSortSlice (rawTimings evs)) with
  | [] => none
  | t :: ts => some (applyOffsets (t :: ts))

/-- Count of registered events whose `Terminal` flag is set
(`lo.CountBy` at latency.go:258). -/
def terminalEvents (events : List Event) : Nat :=
  events.countP fun e => e.terminal

/-- Count of timings with a nil error (`measuredEvents`, latency.go:268). -/
def measuredEvents (timings : List Timing) : Nat :=
  timings.countP fun t => t.error.isNone

/-- Count of timings of terminal events with a nil error
(`measuredTerminalEvents`, latency.go:269). -/
def measuredTerminalEvents (timings : List Timing) : Nat :=
  timings.countP fun t => t.event.terminal && t.error.isNone

/-- The completion decision of one `MeasureUntil` iteration
(latency.go:271-276): either terminal events exist and their count equals
the count of error-free terminal timings, or none exist and the count of
error-free timings reaches the number of registered events. -/
def donePredicate (events : List Event) (timings : List Timing) : Bool :=
  (0 < terminalEvents events && terminalEvents events == measuredTerminalEvents timings)
    || (terminalEvents events == 0 && events.length ≤ measuredEvents timings)

/-- Number of timings in the measurement that belong (by name) to the given
event (`lo.CountBy` inside the timeout error paths, latency.go:288,294). -/
def timingsNamed (timings : List Timing) (e : Event) : Nat :=
  timings.countP fun t => t.event.name == e.name

/-- Names reported by the timeout error of `MeasureUntil`
(latency.go:286-297): if terminal events exist, the terminal events with no
timing at all in the last measurement; otherwise every event with no timing
at all. -/
def unmeasuredNames (events : List Event) (timings : List Timing) : List String :=
  if 0 < terminalEvents events then
    (events.filter fun e => e.terminal && timingsNamed timings e == 0).map fun e => e.name
  else
    (events.filter fun e => timingsNamed timings e == 0).map fun e => e.name

/-- Outcome of a `MeasureUntil` run in the discrete-time model: a success
carries the measurement of the completing pass; a timeout carries the last
measurement, whether the terminal error path was taken, and the reported
event names.  `elapsed` is the model clock at the return point. -/
inductive MUResult where
  | success (elapsed : Int) (timings : List Timing)
  | timedOut (elapsed : Int) (terminalPath : Bool) (unmeasured : List String)
      (timings : List Timing)
deriving DecidableEq, Repr

/-- Loop of `Measurer.MeasureUntil` (latency.go:255-298) in a discrete-time
model: the clock starts at 0, a pass advances it by `passDur`, the
`time.Sleep(retryDelay)` between attempts advances it by `retryDelay`, and
`time.Since(startTime) < timeout` reads it at the top of each iteration.
`rounds` supplies each successive pass's per-event find outcomes (sources
are re-read after `ClearCache`, so outcomes may differ between passes).
`none` models a panic: a pass whose `Measure` panics on an empty timing
slice, the nil-measurement dereference when the loop body never ran, or an
exhausted `rounds` list (the model was given too few passes). -/
def measureUntilAux (events : List Event) (timeout retryDelay passDur : Int) :
    List PassInput → Int → Option (List Timing) → Option MUResult
  | rounds, clock, last =>
    if timeout ≤ clock then
      match last with
      | none => none
      | some timings =>
          some (.timedOut clock (0 < terminalEvents events)
            (unmeasuredNames events timings) timings)
    else
      match rounds with
      | [] => none
      | r :: rest =>
        match measure? r with
        | none => none
        | some timings =>
          if donePredicate events timings then some (.success (clock + passDur) timings)
          else
            measureUntilAux events timeout retryDelay passDur rest
              (clock + passDur + retryDelay) (some timings)

/-- Model of `Measurer.MeasureUntil`: run the retry loop from a zero clock
with no measurement yet. -/
def measureUntil (events : List Event) (rounds : List PassInput)
    (timeout retryDelay passDur : Int) : Option MUResult :=
  measureUntilAux events timeout retryDelay passDur rounds 0 none

/-- Model of a registered `sources.Source` for one pass: its name and the
outcome its `Find` returns for each event. -/
structure SourceM where
  name : String
  find : Event → List FindResult × Option String

/-- Model of `latency.Measurer`: the name-keyed source registry and the
ordered event list, each event bound to its resolved source
(`e.Src = src`, latency.go:194). -/
structure Measurer where
  sources : List SourceM
  events : List (Event × SourceM)

/-- Model of `latency.New`: a measurer with no sources and no events. -/
def New : Measurer := { sources := [], events := [] }

/-- Map-style upsert used by `RegisterSources` (latency.go:178-183):
`m.sources[src.Name()] = src`. -/
def upsertSource (srcs : List SourceM) (s : SourceM) : List SourceM :=
  if srcs.any (fun x => x.name == s.name) then
    srcs.map fun x => if x.name == s.name then s else x
  else srcs ++ [s]

/-- Model of `Measurer.RegisterSources`. -/
def RegisterSources (m : Measurer) (srcs : List SourceM) : Measurer :=
  { m with sources := srcs.foldl upsertSource m.sources }

/-- Model of `Measurer.GetSource` (latency.go:201-204). -/
def GetSource (m : Measurer) (name : String) : Option SourceM :=
  m.sources.find? fun s => s.name == name

/-- The error message `RegisterEvents` accumulates for an event whose source
is not registered (latency.go:191).  The Go format string interpolates
`e.Name` and then `e.Src` — the still-nil bound source interface rather
than `e.SrcName` — so the source position renders as fmt's nil placeholder. -/
def registerErrMsg (e : Event) : String :=
  "unable to register event \"" ++ e.name ++
    "\" because source \"%!s(<nil>)\" is not registered"

/-- One iteration of the `RegisterEvents` loop body (latency.go:188-196):
look the event's source up by name; on a miss, accumulate an error for the
event and skip it; on a hit, bind the source and append the event. -/
def registerStep (acc : Measurer × List String) (e : Event) : Measurer × List String :=
  match GetSource acc.1 e.srcName with
  | none => (acc.1, acc.2 ++ [registerErrMsg e])
  | some src => ({ acc.1 with events := acc.1.events ++ [(e, src)] }, acc.2)

/-- Model of `Measurer.RegisterEvents` (latency.go:186-198).  The
accumulated `multierr` is modelled as the list of its messages
(`[]` = nil aggregate error). -/
def RegisterEvents (m : Measurer) (events : List Event) : Measurer × List String :=
  events.foldl registerStep (m, [])

/-- `Measurer.Measure` of a measurer value: one pass over its bound events,
asking each bound source for its find outcome. -/
def MeasureM (m : Measurer) : Option (List Timing) :=
  measure? (m.events.map fun p => (p.1, p.2.find p.1))

/-- Spec-language predicate: the event has an error-free timing (matched by
name) in the measurement. -/
def eventHasErrorFreeTiming (timings : List Timing) (e : Event) : Bool :=
  timings.any fun t => t.event.name == e.name && t.error.isNone

/-- Spec-language completion condition A: terminal events exist and every
terminal event has an error-free timing in the pass's measurement. -/
def specConditionA (events : List Event) (timings : List Timing) : Bool :=
  (events.any fun e => e.terminal)
    && (events.all fun e => !e.terminal || eventHasErrorFreeTiming timings e)

/-- Spec-language completion condition B: no registered event is terminal
and every registered event has an error-free timing. -/
def specConditionB (events : List Event) (timings : List Timing) : Bool :=
  (events.all fun e => !e.terminal)
    && (events.all fun e => eventHasErrorFreeTiming timings e)

/-!
Helper lemmas about the embedded pipeline.
-/

/-- Chronological order on timings: non-decreasing timestamps. -/
def tsLe (a b : Timing) : Prop := a.timestamp ≤ b.timestamp

/-- Position of the anchor in a timing list: index of the first error-free
timing, if any. -/
def anchorIdxAux : List Timing → Option Nat
  | [] => none
  | t :: ts => if t.error.isNone then some 0 else (anchorIdxAux ts).map (· + 1)

/-- Index of the anchor chosen at latency.go:234-241: the first error-free
position, or 0 when every timing carries an error. -/
def anchorIdx (l : List Timing) : Nat := (anchorIdxAux l).getD 0

/-- Statement of the amended claim C1, as a predicate of the measurement:
the anchor (position `anchorIdx out`) is the first error-free timing, or
the very first timing when all carry errors; every offset is the timestamp
minus the anchor's timestamp; the anchor's own offset is zero; timings
sorted before the anchor carry errors and have non-positive offsets,
negative exactly when their timestamp is strictly below the anchor's. -/
def C1Prop (out : List Timing) : Prop :=
  out ≠ [] ∧
  anchorIdx out < out.length ∧
  (∀ t ∈ out, t.t = t.timestamp - (out.getD (anchorIdx out) default).timestamp) ∧
  (out.getD (anchorIdx out) default).t = 0 ∧
  ((out.getD (anchorIdx out) default).error = none ∨ ∀ t ∈ out, t.error ≠ none) ∧
  ((∀ t ∈ out, t.error ≠ none) → anchorIdx out = 0) ∧
  (∀ j < anchorIdx out,
    (out.getD j default).error ≠ none ∧ (out.getD j default).t ≤ 0 ∧
    ((out.getD j default).t < 0 ↔ (out.getD j default).timestamp <
      (out.getD (anchorIdx out) default).timestamp))

/-- Statement of claim C3 as a predicate: the measurement ends at (and
includes) the last terminal timing of the sorted pass, and no timing in it
has a timestamp past that last terminal timing's. -/
def C3Prop (evs : PassInput) (out : List Timing) : Prop :=
  out ≠ [] ∧
  (∃ i, lastTerminalIdx (sortTimings (rawTimings evs)) = some i ∧ out.length = i + 1) ∧
  (out.getD (out.length - 1) default).event.terminal = true ∧
  ∀ t ∈ out, t.timestamp ≤ (out.getD (out.length - 1) default).timestamp

/-- Event value for concrete instances (bound to the `Messages` source,
selector `first`). -/
def mkEvent (n : String) (term : Bool) : Event :=
  { name := n, metric := n, matchSelector := EventMatchSelectorFirst,
    terminal := term, srcName := "Messages" }

/-- Error-free find result at a timestamp. -/
def mkResult (ts : Int) : FindResult :=
  { line := "log line", timestamp := ts, comment := "", err := none }

/-- Find result carrying a per-result error (e.g. timestamp parse failure). -/
def mkErrResult (ts : Int) (e : String) : FindResult :=
  { line := "log line", timestamp := ts, comment := "", err := some e }

/-- The tie-break property claim C2 asserts of a pass: any two
equal-timestamp timings of the measurement appear in the same relative
order as in the raw (registration-ordered) timing list. -/
def stableTieBreak (raw out : List Timing) : Prop :=
  List.Pairwise
    (fun s t => s.timestamp = t.timestamp →
      raw.findIdx (fun x => x == s) ≤ raw.findIdx (fun x => x == t)) out

instance : DecidableRel tsLe := fun a b =>
  inferInstanceAs (Decidable (a.timestamp ≤ b.timestamp))

instance (raw out : List Timing) : Decidable (stableTieBreak raw out) :=
  inferInstanceAs (Decidable (List.Pairwise _ out))

/-- C1 counterexample input: two events whose results carry the same
timestamp; the first timing's timestamp failed to parse, the second is
error-free and becomes the anchor. -/
def c1CexInput : PassInput :=
  [ (mkEvent "Kubelet Start" false, ([mkErrResult 5 "unable to parse timestamp"], none)),
    (mkEvent "Kubelet Initialized" false, ([mkResult 5], none)) ]

/-- C1 witness input: an errored timing between two error-free ones. -/
def c1WitnessInput : PassInput :=
  [ (mkEvent "VM Initialized" false, ([mkResult 3], none)),
    (mkEvent "Network Start" false, ([mkErrResult 7 "unable to parse timestamp"], none)),
    (mkEvent "Network Ready" false, ([mkResult 9], none)) ]

/-- The measurement of the C1 witness pass. -/
def c1WitnessOut : List Timing := (measure? c1WitnessInput).getD []

/-- C2 counterexample input: 13 single-result events, the first two at
timestamp 2, the remaining eleven at timestamp 1.  13 timings exceed Go's
`maxInsertion = 12` cutoff, so `sort.Slice` runs a pdqsort partition step
whose pivot swap reorders equal-timestamp elements. -/
def c2CexInput : PassInput :=
  [ (mkEvent "e0" false, ([mkResult 2], none)),
    (mkEvent "e1" false, ([mkResult 2], none)),
    (mkEvent "e2" false, ([mkResult 1], none)),
    (mkEvent "e3" false, ([mkResult 1], none)),
    (mkEvent "e4" false, ([mkResult 1], none)),
    (mkEvent "e5" false, ([mkResult 1], none)),
    (mkEvent "e6" false, ([mkResult 1], none)),
    (mkEvent "e7" false, ([mkResult 1], none)),
    (mkEvent "e8" false, ([mkResult 1], none)),
    (mkEvent "e9" false, ([mkResult 1], none)),
    (mkEvent "e10" false, ([mkResult 1], none)),
    (mkEvent "e11" false, ([mkResult 1], none)),
    (mkEvent "e12" false, ([mkResult 1], none)) ]

/-- The C2 counterexample measurement, computed with the exact runtime sort. -/
def c2CexOut : List Timing := (measureGo? c2CexInput).getD []

/-- C2 witness input. -/
def c2WitnessInput : PassInput :=
  [ (mkEvent "Kubelet Start" false, ([mkResult 8], none)),
    (mkEvent "VM Initialized" false, ([mkResult 2], none)) ]

/-- The measurement of the C2 witness pass. -/
def c2WitnessOut : List Timing := (measure? c2WitnessInput).getD []

/-- C3 witness input, the spec's own scenario: a non-terminal event at 5,
a terminal event at 10, and a stale non-terminal event at 20. -/
def c3WitnessInput : PassInput :=
  [ (mkEvent "A" false, ([mkResult 5], none)),
    (mkEvent "Node Ready" true, ([mkResult 10], none)),
    (mkEvent "C" false, ([mkResult 20], none)) ]

/-- The measurement of the C3 witness pass. -/
def c3WitnessOut : List Timing := (measure? c3WitnessInput).getD []

/-- C4 failing input: the first event's source-level `Find` fails with no
results (missing log file); the second event succeeds. -/
def c4Input : PassInput :=
  [ (mkEvent "VM Initialized" false, ([], some "unable to find log file /var/log/messages*")),
    (mkEvent "Network Ready" false, ([mkResult 9], none)) ]

/-- C5 counterexample event: a terminal event with match selector `all`
(as the default `Kube-APIServer Throttled` event uses `all`). -/
def c5CexEvent : Event :=
  { name := "Kube-APIServer Throttled", metric := "kube_apiserver_throttled",
    matchSelector := EventMatchSelectorAll, terminal := true, srcName := "Messages" }

/-- C5 counterexample round: the selector-`all` event matches twice, both
occurrences error-free. -/
def c5CexRound : PassInput := [(c5CexEvent, ([mkResult 4, mkResult 6], none))]

/-- The C5 counterexample measurement. -/
def c5CexOut : List Timing := (measure? c5CexRound).getD []

/-- C5 witness event: a terminal single-match event. -/
def c5WitEvent : Event := mkEvent "Node Ready" true

/-- C5 witness round. -/
def c5WitRound : PassInput := [(c5WitEvent, ([mkResult 4], none))]

/-- The C5 witness measurement. -/
def c5WitOut : List Timing := (measure? c5WitRound).getD []

/-- C6 witness: three sorted error-free results. -/
def c6WitnessResults : List FindResult := [mkResult 1, mkResult 2, mkResult 3]

/-- C7 counterexample event: a terminal event whose only timing carries a
timestamp-parse error every pass. -/
def c7CexEvent : Event := mkEvent "Node Ready" true

/-- C7 counterexample round. -/
def c7CexRound : PassInput :=
  [(c7CexEvent, ([mkErrResult 8 "unable to parse timestamp"], none))]

/-- The C7 counterexample measurement. -/
def c7CexOut : List Timing := (measure? c7CexRound).getD []

/-- C7 witness events: one healthy event and one terminal event whose
find yields nothing at all. -/
def c7WitEvents : List Event :=
  [mkEvent "VM Initialized" false, mkEvent "Node Ready" true]

/-- C7 witness round. -/
def c7WitRound : PassInput :=
  [ (mkEvent "VM Initialized" false, ([mkResult 3], none)),
    (mkEvent "Node Ready" true, ([], some "unable to find log file /var/log/messages*")) ]

/-- The C7 witness measurement. -/
def c7WitOut : List Timing := (measure? c7WitRound).getD []

/-- C8 event: perpetually unresolvable (its timestamp never parses). -/
def c8Event : Event := mkEvent "Kubelet Registered" false

/-- C8 round: the event's timing always carries an error. -/
def c8Round : PassInput :=
  [(c8Event, ([mkErrResult 3 "unable to parse timestamp"], none))]

/-- The C8 measurement. -/
def c8Out : List Timing := (measure? c8Round).getD []

/-- C9 witness source. -/
def c9Src : SourceM := { name := "Messages", find := fun _ => ([mkResult 4], none) }

/-- C9 witness measurer: only the `Messages` source is registered. -/
def c9M : Measurer := RegisterSources New [c9Src]

/-- C9 witness event bound to the unregistered source name `X`. -/
def c9BadEvent : Event :=
  { name := "Bad Event", metric := "bad_event",
    matchSelector := EventMatchSelectorFirst, terminal := false, srcName := "X" }

/-- C9 witness event bound to the registered `Messages` source. -/
def c9GoodEvent : Event := mkEvent "VM Initialized" false

/-- C10 witness input: every event's find yields zero results. -/
def c10Input : PassInput :=
  [ (mkEvent "VM Initialized" false, ([], some "unable to find log file /var/log/messages*")),
    (mkEvent "Node Ready" true, ([], none)) ]

theorem insertTiming_perm (x : Timing) (l : List Timing) :
    List.Perm (insertTiming x l) (x :: l) := by
  induction l with
  | nil => simp [insertTiming]
  | cons y ys ih =>
    cases hxy : timingLess x y with
    | true => simp [insertTiming, hxy]
    | false =>
      simp only [insertTiming, hxy, Bool.false_eq_true, if_false]
      exact List.Perm.trans (ih.cons y) (List.Perm.swap x y ys)

theorem mem_insertTiming {x z : Timing} {l : List Timing} :
    z ∈ insertTiming x l ↔ z = x ∨ z ∈ l := by
  rw [(insertTiming_perm x l).mem_iff, List.mem_cons]

theorem insertTiming_sorted {x : Timing} {l : List Timing} (h : l.Pairwise tsLe) :
    (insertTiming x l).Pairwise tsLe := by
  induction l with
  | nil => simp [insertTiming, List.pairwise_singleton]
  | cons y ys ih =>
    rcases List.pairwise_cons.mp h with ⟨hy, hys⟩
    cases hxy : timingLess x y with
    | true =>
      simp only [insertTiming, hxy, if_true]
      refine List.pairwise_cons.mpr ⟨?_, h⟩
      intro z hz
      rcases List.mem_cons.mp hz with rfl | hz
      · exact le_of_lt (by simpa [timingLess] using hxy)
      · exact le_trans (le_of_lt (by simpa [timingLess] using hxy)) (hy z hz)
    | false =>
      simp only [insertTiming, hxy, Bool.false_eq_true, if_false]
      refine List.pairwise_cons.mpr ⟨?_, ih hys⟩
      intro z hz
      rcases mem_insertTiming.mp hz with rfl | hz
      · exact le_of_not_lt (by simpa [timingLess] using hxy)
      · exact hy z hz

theorem foldl_insertTiming_perm (l acc : List Timing) :
    List.Perm (l.foldl (fun acc x => insertTiming x acc) acc) (acc ++ l) := by
  induction l generalizing acc with
  | nil => simp
  | cons x xs ih =>
    simp only [List.foldl_cons]
    refine List.Perm.trans (ih _) ?_
    refine List.Perm.trans ((insertTiming_perm x acc).append_right xs) ?_
    exact List.perm_middle.symm

theorem sortTimings_perm (l : List Timing) : List.Perm (sortTimings l) l := by
  simpa using foldl_insertTiming_perm l []

theorem foldl_insertTiming_sorted (l : List Timing) :
    ∀ acc : List Timing, acc.Pairwise tsLe →
      (l.foldl (fun acc x => insertTiming x acc) acc).Pairwise tsLe := by
  induction l with
  | nil => intro acc hacc; simpa using hacc
  | cons x xs ih =>
    intro acc hacc
    exact ih _ (insertTiming_sorted hacc)

theorem sortTimings_sorted (l : List Timing) : (sortTimings l).Pairwise tsLe :=
  foldl_insertTiming_sorted l [] List.Pairwise.nil

theorem truncateTerminal_sublist (l : List Timing) : List.Sublist (truncateTerminal l) l := by
  unfold truncateTerminal
  cases lastTerminalIdx l with
  | none => exact List.Sublist.refl l
  | some i => exact List.take_sublist _ l

theorem preTimings_sorted (evs : PassInput) : (preTimings evs).Pairwise tsLe :=
  (sortTimings_sorted (rawTimings evs)).sublist (truncateTerminal_sublist _)

theorem mem_preTimings {evs : PassInput} {t : Timing} (h : t ∈ preTimings evs) :
    t ∈ rawTimings evs :=
  (sortTimings_perm (rawTimings evs)).mem_iff.mp ((truncateTerminal_sublist _).subset h)

theorem rawTimings_event_mem {evs : PassInput} {t : Timing} (h : t ∈ rawTimings evs) :
    t.event ∈ evs.map Prod.fst := by
  simp only [rawTimings, List.mem_flatMap, List.mem_map] at h
  rcases h with ⟨p, hp, r, _, rfl⟩
  exact List.mem_map.mpr ⟨p, hp, rfl⟩

theorem measure?_eq_some_iff {evs : PassInput} {out : List Timing} :
    measure? evs = some out ↔ preTimings evs ≠ [] ∧ out = applyOffsets (preTimings evs) := by
  unfold measure?
  cases h : preTimings evs with
  | nil => simp
  | cons t ts => simp [eq_comm]

theorem measure?_eq_none_iff {evs : PassInput} :
    measure? evs = none ↔ preTimings evs = [] := by
  unfold measure?
  cases h : preTimings evs <;> simp

theorem truncateTerminal_eq_nil_iff {l : List Timing} :
    truncateTerminal l = [] ↔ l = [] := by
  unfold truncateTerminal
  cases h : lastTerminalIdx l with
  | none => simp
  | some i => simp [List.take_eq_nil_iff]

theorem sortTimings_eq_nil_iff {l : List Timing} : sortTimings l = [] ↔ l = [] := by
  constructor
  · intro h
    have := (sortTimings_perm l).length_eq
    rw [h] at this
    exact List.length_eq_zero.mp this.symm
  · rintro rfl; rfl

theorem preTimings_eq_nil_iff {evs : PassInput} :
    preTimings evs = [] ↔ rawTimings evs = [] := by
  unfold preTimings
  rw [truncateTerminal_eq_nil_iff, sortTimings_eq_nil_iff]

theorem anchorIdxAux_some {l : List Timing} :
    ∀ {i : Nat}, anchorIdxAux l = some i →
      i < l.length ∧ l.find? (fun t => t.error.isNone) = some (l.getD i default) ∧
      (l.getD i default).error = none ∧ ∀ j < i, (l.getD j default).error ≠ none := by
  induction l with
  | nil => intro i h; simp [anchorIdxAux] at h
  | cons t ts ih =>
    intro i h
    cases ht : t.error.isNone with
    | true =>
      simp only [anchorIdxAux, ht, if_true, Option.some_inj] at h
      subst h
      refine ⟨by simp, ?_, ?_, by omega⟩
      · rw [List.getD_cons_zero]
        exact List.find?_cons_of_pos ts
          (show (fun u : Timing => u.error.isNone) t = true from ht)
      · simpa [Option.isNone_iff_eq_none] using ht
    | false =>
      simp only [anchorIdxAux, ht, Bool.false_eq_true, if_false, Option.map_eq_some'] at h
      rcases h with ⟨i', hi', rfl⟩
      rcases ih hi' with ⟨hlen, hfind, herr, hbefore⟩
      refine ⟨by simpa using hlen, ?_, by simpa using herr, ?_⟩
      · rw [List.find?_cons_of_neg _ (by simp [ht])]
        simpa using hfind
      · intro j hj
        cases j with
        | zero =>
          rw [List.getD_cons_zero]
          intro heq
          rw [heq] at ht
          simp at ht
        | succ j' => simpa using hbefore j' (by omega)

theorem anchorIdxAux_none {l : List Timing} (h : anchorIdxAux l = none) :
    l.find? (fun t => t.error.isNone) = none ∧ ∀ t ∈ l, t.error ≠ none := by
  induction l with
  | nil => simp
  | cons t ts ih =>
    cases ht : t.error.isNone with
    | true => simp [anchorIdxAux, ht] at h
    | false =>
      simp only [anchorIdxAux, ht, Bool.false_eq_true, if_false, Option.map_eq_none'] at h
      rcases ih h with ⟨hfind, hall⟩
      refine ⟨?_, ?_⟩
      · rw [List.find?_cons_of_neg _ (by simp [ht])]; exact hfind
      · intro u hu
        rcases List.mem_cons.mp hu with rfl | hu
        · intro heq; rw [heq] at ht; simp at ht
        · exact hall u hu

theorem anchorIdx_lt_length {l : List Timing} (hl : l ≠ []) : anchorIdx l < l.length := by
  cases h : anchorIdxAux l with
  | none => simpa [anchorIdx, h] using List.length_pos.mpr hl
  | some i => simpa [anchorIdx, h] using (anchorIdxAux_some h).1

theorem firstSuccessfulTiming_eq_getD {l : List Timing} (hl : l ≠ []) :
    firstSuccessfulTiming l = l.getD (anchorIdx l) default := by
  cases h : anchorIdxAux l with
  | none =>
    have hfind := (anchorIdxAux_none h).1
    cases l with
    | nil => exact absurd rfl hl
    | cons t ts => simp [firstSuccessfulTiming, hfind, anchorIdx, h]
  | some i =>
    have hfind := (anchorIdxAux_some h).2.1
    simp [firstSuccessfulTiming, hfind, anchorIdx, h]

theorem anchor_error_cases {l : List Timing} :
    (l.getD (anchorIdx l) default).error = none ∨ ∀ t ∈ l, t.error ≠ none := by
  cases h : anchorIdxAux l with
  | none => exact Or.inr (anchorIdxAux_none h).2
  | some i => exact Or.inl (by simpa [anchorIdx, h] using (anchorIdxAux_some h).2.2.1)

theorem anchor_before_err {l : List Timing} :
    ∀ j < anchorIdx l, (l.getD j default).error ≠ none := by
  cases h : anchorIdxAux l with
  | none => simp [anchorIdx, h]
  | some i =>
    intro j hj
    exact (anchorIdxAux_some h).2.2.2 j (by simpa [anchorIdx, h] using hj)

theorem anchorIdx_eq_zero_of_all_err {l : List Timing} (h : ∀ t ∈ l, t.error ≠ none) :
    anchorIdx l = 0 := by
  cases haux : anchorIdxAux l with
  | none => simp [anchorIdx, haux]
  | some i =>
    rcases anchorIdxAux_some haux with ⟨hlen, _, herr, _⟩
    have hmem : l.getD i default ∈ l := by
      rw [List.getD_eq_getElem l default hlen]
      exact List.getElem_mem hlen
    exact absurd herr (h _ hmem)

theorem anchorIdxAux_map_errPreserving (f : Timing → Timing)
    (hf : ∀ t, (f t).error = t.error) (l : List Timing) :
    anchorIdxAux (l.map f) = anchorIdxAux l := by
  induction l with
  | nil => rfl
  | cons t ts ih => simp [anchorIdxAux, hf, ih]

theorem anchorIdx_applyOffsets (l : List Timing) :
    anchorIdx (applyOffsets l) = anchorIdx l := by
  unfold anchorIdx applyOffsets
  rw [anchorIdxAux_map_errPreserving
    (fun t => { t with t := t.timestamp - (firstSuccessfulTiming l).timestamp })
    (fun t => rfl) l]

theorem applyOffsets_length (l : List Timing) :
    (applyOffsets l).length = l.length := by
  simp [applyOffsets]

theorem applyOffsets_getD {l : List Timing} {i : Nat} (h : i < l.length) :
    (applyOffsets l).getD i default =
      { l.getD i default with
        t := (l.getD i default).timestamp - (firstSuccessfulTiming l).timestamp } := by
  unfold applyOffsets
  rw [List.getD_eq_getElem _ default (by simpa using h), List.getD_eq_getElem _ default h,
    List.getElem_map]

theorem applyOffsets_mem {l : List Timing} {t : Timing} (h : t ∈ applyOffsets l) :
    ∃ u ∈ l, t = { u with t := u.timestamp - (firstSuccessfulTiming l).timestamp } := by
  simpa [applyOffsets, eq_comm] using h

theorem measure_anchor_core {evs : PassInput} {out : List Timing}
    (h : measure? evs = some out) : C1Prop out := by
  rcases measure?_eq_some_iff.mp h with ⟨hne, rfl⟩
  have hlen : (applyOffsets (preTimings evs)).length = (preTimings evs).length :=
    applyOffsets_length _
  have hanchor : anchorIdx (applyOffsets (preTimings evs)) = anchorIdx (preTimings evs) :=
    anchorIdx_applyOffsets _
  have hple : anchorIdx (preTimings evs) < (preTimings evs).length := anchorIdx_lt_length hne
  have hfst : firstSuccessfulTiming (preTimings evs) =
      (preTimings evs).getD (anchorIdx (preTimings evs)) default :=
    firstSuccessfulTiming_eq_getD hne
  have hgetA : (applyOffsets (preTimings evs)).getD
      (anchorIdx (applyOffsets (preTimings evs))) default =
      { (preTimings evs).getD (anchorIdx (preTimings evs)) default with
        t := ((preTimings evs).getD (anchorIdx (preTimings evs)) default).timestamp -
          (firstSuccessfulTiming (preTimings evs)).timestamp } := by
    rw [hanchor]; exact applyOffsets_getD hple
  have hanchorTs : ((applyOffsets (preTimings evs)).getD
      (anchorIdx (applyOffsets (preTimings evs))) default).timestamp =
      (firstSuccessfulTiming (preTimings evs)).timestamp := by
    rw [hgetA, ← hfst]
  refine ⟨?_, ?_, ?_, ?_, ?_, ?_, ?_⟩
  · intro hnil
    exact hne (List.map_eq_nil_iff.mp hnil)
  · rw [hanchor, hlen]; exact hple
  · intro t ht
    rcases applyOffsets_mem ht with ⟨u, _, rfl⟩
    show u.timestamp - (firstSuccessfulTiming (preTimings evs)).timestamp =
      u.timestamp - ((applyOffsets (preTimings evs)).getD
        (anchorIdx (applyOffsets (preTimings evs))) default).timestamp
    rw [hanchorTs]
  · rw [hgetA, ← hfst]
    simp
  · have herr : ((applyOffsets (preTimings evs)).getD
        (anchorIdx (applyOffsets (preTimings evs))) default).error =
        ((preTimings evs).getD (anchorIdx (preTimings evs)) default).error := by
      rw [hgetA]
    rcases anchor_error_cases (l := preTimings evs) with hnone | hall
    · exact Or.inl (by rw [herr]; exact hnone)
    · refine Or.inr ?_
      intro t ht
      rcases applyOffsets_mem ht with ⟨u, hu, rfl⟩
      exact hall u hu
  · intro hall
    rw [hanchor]
    refine anchorIdx_eq_zero_of_all_err ?_
    intro u hu
    have : ({ u with t := u.timestamp -
        (firstSuccessfulTiming (preTimings evs)).timestamp } : Timing) ∈
        applyOffsets (preTimings evs) := by
      simp only [applyOffsets, List.mem_map]
      exact ⟨u, hu, rfl⟩
    exact hall { u with t := u.timestamp -
      (firstSuccessfulTiming (preTimings evs)).timestamp } this
  · intro j hj
    rw [hanchor] at hj
    have hjlen : j < (preTimings evs).length := lt_trans hj hple
    have hgetJ : (applyOffsets (preTimings evs)).getD j default =
        { (preTimings evs).getD j default with
          t := ((preTimings evs).getD j default).timestamp -
            (firstSuccessfulTiming (preTimings evs)).timestamp } :=
      applyOffsets_getD hjlen
    have hts : ((preTimings evs).getD j default).timestamp ≤
        (firstSuccessfulTiming (preTimings evs)).timestamp := by
      rw [hfst]
      have hsorted := preTimings_sorted evs
      rw [List.pairwise_iff_getElem] at hsorted
      have := hsorted j (anchorIdx (preTimings evs)) hjlen hple hj
      rwa [List.getD_eq_getElem _ default hjlen, List.getD_eq_getElem _ default hple]
    refine ⟨?_, ?_, ?_⟩
    · rw [hgetJ]
      exact anchor_before_err j hj
    · rw [hgetJ]
      simpa using hts
    · rw [hgetJ, hanchorTs]
      constructor
      · intro hlt
        simpa using lt_of_sub_neg (by simpa using hlt)
      · intro hlt
        simpa using sub_neg.mpr hlt

theorem lastTerminalIdx_none_spec {l : List Timing} (h : lastTerminalIdx l = none) :
    ∀ t ∈ l, t.event.terminal = false := by
  induction l with
  | nil => simp
  | cons t ts ih =>
    intro u hu
    unfold lastTerminalIdx at h
    cases hts : lastTerminalIdx ts with
    | some i => rw [hts] at h; simp at h
    | none =>
      rw [hts] at h
      rcases List.mem_cons.mp hu with rfl | hu
      · by_contra hterm
        simp [Bool.not_eq_false] at hterm
        simp [hterm] at h
      · exact ih hts u hu

theorem lastTerminalIdx_some_spec {l : List Timing} :
    ∀ {i : Nat}, lastTerminalIdx l = some i →
      i < l.length ∧ (l.getD i default).event.terminal = true ∧
      ∀ j, i < j → j < l.length → (l.getD j default).event.terminal = false := by
  induction l with
  | nil => intro i h; simp [lastTerminalIdx] at h
  | cons t ts ih =>
    intro i h
    unfold lastTerminalIdx at h
    cases hts : lastTerminalIdx ts with
    | some i' =>
      rw [hts] at h
      simp only [Option.some_inj] at h
      subst h
      rcases ih hts with ⟨hlen, hterm, hafter⟩
      refine ⟨by simpa using hlen, by simpa using hterm, ?_⟩
      intro j hj hjlen
      cases j with
      | zero => omega
      | succ j' =>
        rw [List.getD_cons_succ]
        exact hafter j' (by omega) (by simpa using hjlen)
    | none =>
      rw [hts] at h
      by_cases hterm : t.event.terminal = true
      · simp only [hterm, if_true, Option.some_inj] at h
        subst h
        refine ⟨by simp, by simpa using hterm, ?_⟩
        intro j hj hjlen
        cases j with
        | zero => omega
        | succ j' =>
          rw [List.getD_cons_succ]
          have hmem : ts.getD j' default ∈ ts := by
            rw [List.getD_eq_getElem _ default (by simpa using hjlen)]
            exact List.getElem_mem _
          exact lastTerminalIdx_none_spec hts _ hmem
      · simp [hterm] at h

theorem lastTerminalIdx_isSome_of_mem {l : List Timing} {t : Timing}
    (ht : t ∈ l) (hterm : t.event.terminal = true) :
    ∃ i, lastTerminalIdx l = some i := by
  cases h : lastTerminalIdx l with
  | none => exact absurd hterm (by simp [lastTerminalIdx_none_spec h t ht])
  | some i => exact ⟨i, rfl⟩

theorem measure_truncates_at_terminal {evs : PassInput} {out : List Timing}
    (h : measure? evs = some out)
    (hterm : ∃ t ∈ rawTimings evs, t.event.terminal = true) : C3Prop evs out := by
  rcases measure?_eq_some_iff.mp h with ⟨hne, rfl⟩
  rcases hterm with ⟨t, htmem, htterm⟩
  have htsorted : t ∈ sortTimings (rawTimings evs) :=
    (sortTimings_perm (rawTimings evs)).mem_iff.mpr htmem
  rcases lastTerminalIdx_isSome_of_mem htsorted htterm with ⟨i, hidx⟩
  rcases lastTerminalIdx_some_spec hidx with ⟨hilen, hiterm, _⟩
  have hpre : preTimings evs = (sortTimings (rawTimings evs)).take (i + 1) := by
    unfold preTimings truncateTerminal
    rw [hidx]
  have hprelen : (preTimings evs).length = i + 1 := by
    rw [hpre, List.length_take]
    omega
  have houtlen : (applyOffsets (preTimings evs)).length = i + 1 := by
    rw [applyOffsets_length, hprelen]
  have hgetPre : (preTimings evs).getD i default =
      (sortTimings (rawTimings evs)).getD i default := by
    rw [hpre, List.getD_eq_getElem _ default (by rw [List.length_take]; omega),
      List.getD_eq_getElem _ default hilen]
    exact List.getElem_take _
  have hgetOut : (applyOffsets (preTimings evs)).getD i default =
      { (preTimings evs).getD i default with
        t := ((preTimings evs).getD i default).timestamp -
          (firstSuccessfulTiming (preTimings evs)).timestamp } :=
    applyOffsets_getD (by omega)
  refine ⟨?_, ⟨i, hidx, houtlen⟩, ?_, ?_⟩
  · intro hnil
    rw [hnil] at houtlen
    simp at houtlen
  · rw [houtlen]
    simp only [Nat.add_sub_cancel]
    rw [hgetOut]
    show ((preTimings evs).getD i default).event.terminal = true
    rw [hgetPre]
    exact hiterm
  · intro u hu
    rw [houtlen]
    simp only [Nat.add_sub_cancel]
    rw [hgetOut]
    show u.timestamp ≤ ((preTimings evs).getD i default).timestamp
    rcases applyOffsets_mem hu with ⟨v, hv, rfl⟩
    show v.timestamp ≤ ((preTimings evs).getD i default).timestamp
    rcases List.mem_iff_getElem.mp hv with ⟨k, hk, hveq⟩
    have hsorted := preTimings_sorted evs
    rw [List.pairwise_iff_getElem] at hsorted
    rcases Nat.lt_or_ge k i with hki | hki
    · have := hsorted k i (by omega) (by omega) hki
      rw [List.getD_eq_getElem _ default (by omega)]
      rw [hveq] at this
      exact this
    · have hkeq : k = i := by omega
      subst hkeq
      rw [List.getD_eq_getElem _ default (by omega), ← hveq]

/-- Claim C10's content: the `Measure` pass panics (returns `none` in the
model) exactly when the raw timing list is empty, in particular whenever
every registered event's find yields zero results. -/
theorem measure_panics_on_empty (evs : PassInput) :
    ((∀ p ∈ evs, p.2.1 = []) → measure? evs = none) ∧
    (measure? evs = none ↔ rawTimings evs = []) := by
  constructor
  · intro hall
    rw [measure?_eq_none_iff, preTimings_eq_nil_iff]
    unfold rawTimings
    rw [List.flatMap_eq_nil_iff]
    intro p hp
    rw [hall p hp]
    rfl
  · rw [measure?_eq_none_iff, preTimings_eq_nil_iff]

/-- Claim C2 (amended): the measurement of a pass is sorted non-decreasing
by timestamp. -/
theorem measure_output_sorted {evs : PassInput} {out : List Timing}
    (h : measure? evs = some out) : out.Pairwise tsLe := by
  rcases measure?_eq_some_iff.mp h with ⟨_, rfl⟩
  unfold applyOffsets
  exact List.Pairwise.map _ (fun a b hab => hab) (preTimings_sorted evs)

theorem countP_and_partition (p q : Timing → Bool) (l : List Timing) :
    l.countP p = l.countP (fun a => p a && q a) + l.countP (fun a => p a && !q a) := by
  induction l with
  | nil => rfl
  | cons t ts ih =>
    simp only [List.countP_cons]
    cases hq : q t <;> cases hp : p t <;> simp [hp, hq] <;> omega

theorem countKey (P : Event → Bool) :
    ∀ (events : List Event) (timings : List Timing),
      (∀ t ∈ timings, t.event ∈ events) →
      (events.map fun e => e.name).Nodup →
      (∀ e ∈ events, timingsNamed timings e ≤ 1) →
      timings.countP (fun t => P t.event && t.error.isNone) ≤ events.countP P ∧
      (timings.countP (fun t => P t.event && t.error.isNone) = events.countP P ↔
        ∀ e ∈ events, P e = true → eventHasErrorFreeTiming timings e = true) := by
  intro events
  induction events with
  | nil =>
    intro timings hprov _ _
    have htnil : timings = [] := by
      cases timings with
      | nil => rfl
      | cons t ts => exact absurd (hprov t (by simp)) (by simp)
    subst htnil
    simp
  | cons e es ih =>
    intro timings hprov hnodup hcount
    have hnn : (∀ x ∈ es, ¬x.name = e.name) ∧ (es.map fun e => e.name).Nodup := by
      simpa using hnodup
    set q : Timing → Bool := fun t => t.event.name == e.name with hq
    set p : Timing → Bool := fun t => P t.event && t.error.isNone with hp
    set t1 : List Timing := timings.filter q with ht1
    set t2 : List Timing := timings.filter (fun t => !q t) with ht2
    have ht1event : ∀ t ∈ t1, t.event = e := by
      intro t ht
      rcases List.mem_filter.mp ht with ⟨htmem, htq⟩
      have hname : t.event.name = e.name := by
        have : q t = true := htq
        rw [hq] at this
        simpa using this
      rcases List.mem_cons.mp (hprov t htmem) with heq | hmem
      · exact heq
      · exact absurd hname (hnn.1 t.event hmem)
    have ht2prov : ∀ t ∈ t2, t.event ∈ es := by
      intro t ht
      rcases List.mem_filter.mp ht with ⟨htmem, htq⟩
      rcases List.mem_cons.mp (hprov t htmem) with heq | hmem
      · exfalso
        have hqt : q t = true := by rw [hq]; simp [heq]
        have : (!q t) = true := htq
        rw [hqt] at this
        simp at this
      · exact hmem
    have ht2count : ∀ e' ∈ es, timingsNamed t2 e' ≤ 1 := by
      intro e' he'
      refine le_trans ?_ (hcount e' (by simp [he']))
      unfold timingsNamed
      rw [ht2, List.countP_filter]
      refine List.countP_mono_left fun t _ h => ?_
      have h' : (t.event.name == e'.name) = true ∧ (!q t) = true := by simpa using h
      exact h'.1
    have hsplit : timings.countP p = t1.countP p + t2.countP p := by
      rw [ht1, ht2, List.countP_filter, List.countP_filter]
      exact countP_and_partition p q timings
    have hcnt1le : t1.countP p ≤ 1 := by
      refine le_trans (List.countP_le_length p) ?_
      have hlen : t1.length = timingsNamed timings e := by
        unfold timingsNamed
        rw [ht1, ← hq, List.countP_eq_length_filter]
      rw [hlen]
      exact hcount e (by simp)
    have hhasSplit : ∀ e' : Event, e' ∈ es →
        eventHasErrorFreeTiming timings e' = eventHasErrorFreeTiming t2 e' := by
      intro e' he'
      have hne' : ¬e'.name = e.name := hnn.1 e' he'
      unfold eventHasErrorFreeTiming
      cases h2 : t2.any fun t => t.event.name == e'.name && t.error.isNone with
      | true =>
        rcases List.any_eq_true.mp h2 with ⟨t, ht, htp⟩
        exact List.any_eq_true.mpr ⟨t, (List.mem_filter.mp ht).1, htp⟩
      | false =>
        by_contra hcontra
        rw [Bool.not_eq_false] at hcontra
        rcases List.any_eq_true.mp hcontra with ⟨t, ht, htp⟩
        have htp' : (t.event.name == e'.name) = true ∧ t.error.isNone = true := by
          simpa using htp
        have htname' : t.event.name = e'.name := by simpa using htp'.1
        have hqf : q t = false := by
          rw [hq]
          simp only [beq_eq_false_iff_ne, ne_eq, htname']
          exact hne'
        have ht2m : t ∈ t2 := by
          rw [ht2]
          exact List.mem_filter.mpr ⟨ht, by simp [hqf]⟩
        have hcontr : (t2.any fun t => t.event.name == e'.name && t.error.isNone) = true :=
          List.any_eq_true.mpr ⟨t, ht2m, by simpa using htp⟩
        rw [h2] at hcontr
        exact absurd hcontr (by simp)
    have hhasE : eventHasErrorFreeTiming timings e = true ↔ ∃ t ∈ t1, t.error.isNone := by
      unfold eventHasErrorFreeTiming
      rw [List.any_eq_true]
      constructor
      · rintro ⟨t, ht, htp⟩
        have htp' : (t.event.name == e.name) = true ∧ t.error.isNone = true := by
          simpa using htp
        exact ⟨t, List.mem_filter.mpr ⟨ht, htp'.1⟩, htp'.2⟩
      · rintro ⟨t, ht, hterr⟩
        rcases List.mem_filter.mp ht with ⟨htmem, htq⟩
        refine ⟨t, htmem, ?_⟩
        have : q t = true := htq
        rw [hq] at this
        simp only [this, hterr, Bool.and_self]
    rcases ih t2 ht2prov hnn.2 ht2count with ⟨ihle, ihiff⟩
    have hcountPes : (e :: es).countP P = es.countP P + (if P e then 1 else 0) :=
      List.countP_cons P e es
    cases hPe : P e with
    | true =>
      have hcnt1eq : t1.countP p = t1.countP (fun t => t.error.isNone) := by
        refine List.countP_congr ?_
        intro t ht
        rw [hp]
        show ((P t.event && t.error.isNone) = true ↔ t.error.isNone = true)
        rw [ht1event t ht, hPe]
        simp
      have hcnt1iff : t1.countP p = 1 ↔ ∃ t ∈ t1, t.error.isNone := by
        rw [hcnt1eq]
        constructor
        · intro h1
          have : 0 < t1.countP (fun t => t.error.isNone) := by omega
          rcases List.countP_pos_iff.mp this with ⟨t, ht, htp⟩
          exact ⟨t, ht, htp⟩
        · rintro ⟨t, ht, htp⟩
          have hpos : 0 < t1.countP (fun t => t.error.isNone) :=
            List.countP_pos_iff.mpr ⟨t, ht, htp⟩
          have hle : t1.countP (fun t => t.error.isNone) ≤ 1 := by
            rw [← hcnt1eq]; exact hcnt1le
          omega
      constructor
      · rw [hsplit, hcountPes, hPe]
        simp only [if_true]
        omega
      · rw [hsplit, hcountPes, hPe]
        simp only [if_true]
        constructor
        · intro heq
          have hc1 : t1.countP p = 1 := by omega
          have hc2 : t2.countP p = es.countP P := by omega
          intro e' he' hPe'
          rcases List.mem_cons.mp he' with rfl | he'mem
          · exact hhasE.mpr (hcnt1iff.mp hc1)
          · rw [hhasSplit e' he'mem]
            exact ihiff.mp hc2 e' he'mem hPe'
        · intro hall
          have hc1 : t1.countP p = 1 := by
            refine hcnt1iff.mpr (hhasE.mp ?_)
            exact hall e (by simp) hPe
          have hc2 : t2.countP p = es.countP P := by
            refine ihiff.mpr ?_
            intro e' he' hPe'
            rw [← hhasSplit e' he']
            exact hall e' (by simp [he']) hPe'
          omega
    | false =>
      have hcnt1zero : t1.countP p = 0 := by
        rw [List.countP_eq_zero]
        intro t ht
        rw [hp]
        show ¬(P t.event && t.error.isNone) = true
        rw [ht1event t ht, hPe]
        simp
      constructor
      · rw [hsplit, hcountPes, hPe, hcnt1zero]
        simp only [Bool.false_eq_true, if_false]
        omega
      · rw [hsplit, hcountPes, hPe, hcnt1zero]
        simp only [Bool.false_eq_true, if_false, Nat.zero_add, Nat.add_zero]
        constructor
        · intro heq e' he' hPe'
          rcases List.mem_cons.mp he' with rfl | he'mem
          · rw [hPe'] at hPe; exact absurd hPe (by simp)
          · rw [hhasSplit e' he'mem]
            exact ihiff.mp heq e' he'mem hPe'
        · intro hall
          refine ihiff.mpr ?_
          intro e' he' hPe'
          rw [← hhasSplit e' he']
          exact hall e' (by simp [he']) hPe'

theorem measure?_out_event {evs : PassInput} {out : List Timing}
    (h : measure? evs = some out) : ∀ t ∈ out, t.event ∈ evs.map Prod.fst := by
  rcases measure?_eq_some_iff.mp h with ⟨_, rfl⟩
  intro t ht
  rcases applyOffsets_mem ht with ⟨u, hu, rfl⟩
  show u.event ∈ evs.map Prod.fst
  exact rawTimings_event_mem (mem_preTimings hu)

theorem donePredicate_iff_spec (events : List Event) (timings : List Timing)
    (hprov : ∀ t ∈ timings, t.event ∈ events)
    (hnodup : (events.map fun e => e.name).Nodup)
    (hcount : ∀ e ∈ events, timingsNamed timings e ≤ 1) :
    donePredicate events timings = true ↔
      (specConditionA events timings = true ∨ specConditionB events timings = true) := by
  obtain ⟨hTle, hTiff⟩ := countKey (fun e => e.terminal) events timings hprov hnodup hcount
  obtain ⟨hAle, hAiff⟩ := countKey (fun _ => true) events timings hprov hnodup hcount
  have hmeq : (timings.countP fun t => true && t.error.isNone) = measuredEvents timings := by
    unfold measuredEvents
    refine List.countP_congr ?_
    intro t _
    simp
  rw [hmeq] at hAle hAiff
  rw [List.countP_true] at hAle hAiff
  have hTeq : (timings.countP fun t => t.event.terminal && t.error.isNone) =
      measuredTerminalEvents timings := rfl
  rw [hTeq] at hTle hTiff
  have hAll : ∀ e : Event, (!e.terminal || eventHasErrorFreeTiming timings e) = true ↔
      (e.terminal = true → eventHasErrorFreeTiming timings e = true) := by
    intro e
    cases he : e.terminal <;> simp
  by_cases hte : 0 < terminalEvents events
  · have hA : specConditionA events timings = true ↔
        ∀ e ∈ events, e.terminal = true → eventHasErrorFreeTiming timings e = true := by
      unfold specConditionA
      rw [Bool.and_eq_true]
      have hany : (events.any fun e => e.terminal) = true := by
        rw [List.any_eq_true]
        rcases List.countP_pos_iff.mp hte with ⟨e, he, hp⟩
        exact ⟨e, he, hp⟩
      rw [List.all_eq_true]
      simp only [hany, true_and]
      constructor
      · intro h e he ht
        exact (hAll e).mp (h e he) ht
      · intro h e he
        exact (hAll e).mpr (h e he)
    have hB : specConditionB events timings = false := by
      unfold specConditionB
      rcases List.countP_pos_iff.mp hte with ⟨e, he, hp⟩
      have : (events.all fun e => !e.terminal) = false := by
        rw [← Bool.not_eq_true, List.all_eq_true]
        intro hcontra
        have := hcontra e he
        rw [hp] at this
        simp at this
      rw [this]
      simp
    have hD : donePredicate events timings = true ↔
        terminalEvents events = measuredTerminalEvents timings := by
      unfold donePredicate
      simp only [Bool.or_eq_true, Bool.and_eq_true, decide_eq_true_eq, beq_iff_eq]
      omega
    rw [hD, hB, hA]
    simp only [Bool.false_eq_true, or_false]
    exact eq_comm.trans hTiff
  · have hte0 : terminalEvents events = 0 := by omega
    have hnone : ∀ e ∈ events, e.terminal = false := by
      intro e he
      have := List.countP_eq_zero.mp hte0
      have h2 := this e he
      simpa using h2
    have hA : specConditionA events timings = false := by
      unfold specConditionA
      have : (events.any fun e => e.terminal) = false := by
        rw [← Bool.not_eq_true, List.any_eq_true]
        rintro ⟨e, he, hp⟩
        rw [hnone e he] at hp
        exact absurd hp (by simp)
      rw [this]
      simp
    have hB : specConditionB events timings = true ↔
        ∀ e ∈ events, eventHasErrorFreeTiming timings e = true := by
      unfold specConditionB
      rw [Bool.and_eq_true, List.all_eq_true, List.all_eq_true]
      have hnt : ∀ e ∈ events, (!e.terminal) = true := by
        intro e he
        rw [hnone e he]
        rfl
      constructor
      · rintro ⟨_, h2⟩; exact h2
      · intro h2; exact ⟨hnt, h2⟩
    have hD : donePredicate events timings = true ↔
        events.length ≤ measuredEvents timings := by
      unfold donePredicate
      simp only [Bool.or_eq_true, Bool.and_eq_true, decide_eq_true_eq, beq_iff_eq]
      omega
    rw [hD, hA, hB]
    simp only [Bool.false_eq_true, false_or]
    have : events.length ≤ measuredEvents timings ↔
        measuredEvents timings = events.length := by omega
    rw [this]
    refine hAiff.trans ⟨fun h e he => h e he rfl, fun h e he _ => h e he⟩

theorem measureUntilAux_timedOut {events : List Event} {timeout rd pd : Int}
    {rounds : List PassInput} {clock : Int} {last : Option (List Timing)}
    (h : timeout ≤ clock) :
    measureUntilAux events timeout rd pd rounds clock last =
      match last with
      | none => none
      | some timings =>
          some (.timedOut clock (decide (0 < terminalEvents events))
            (unmeasuredNames events timings) timings) := by
  unfold measureUntilAux
  rw [if_pos h]

theorem measureUntilAux_step {events : List Event} {timeout rd pd : Int}
    {r : PassInput} {rest : List PassInput} {clock : Int} {last : Option (List Timing)}
    {timings : List Timing} (h : ¬timeout ≤ clock) (hm : measure? r = some timings) :
    measureUntilAux events timeout rd pd (r :: rest) clock last =
      if donePredicate events timings then some (.success (clock + pd) timings)
      else measureUntilAux events timeout rd pd rest (clock + pd + rd) (some timings) := by
  conv =>
    lhs
    unfold measureUntilAux
  rw [if_neg h]
  show (match measure? r with
    | none => none
    | some timings =>
        if donePredicate events timings = true then
          some (MUResult.success (clock + pd) timings)
        else measureUntilAux events timeout rd pd rest (clock + pd + rd) (some timings)) = _
  rw [hm]

theorem measureUntilAux_step_none {events : List Event} {timeout rd pd : Int}
    {r : PassInput} {rest : List PassInput} {clock : Int} {last : Option (List Timing)}
    (h : ¬timeout ≤ clock) (hm : measure? r = none) :
    measureUntilAux events timeout rd pd (r :: rest) clock last = none := by
  conv =>
    lhs
    unfold measureUntilAux
  rw [if_neg h]
  show (match measure? r with
    | none => none
    | some timings =>
        if donePredicate events timings = true then
          some (MUResult.success (clock + pd) timings)
        else measureUntilAux events timeout rd pd rest (clock + pd + rd) (some timings)) = _
  rw [hm]

theorem measureUntil_success_iff (events : List Event) (r : PassInput)
    (rest : List PassInput) (timings : List Timing) (timeout retryDelay passDur : Int)
    (hre : r.map Prod.fst = events)
    (hr : measure? r = some timings)
    (hnodup : (events.map fun e => e.name).Nodup)
    (hcount : ∀ e ∈ events, timingsNamed timings e ≤ 1)
    (h0 : 0 < timeout) (hto : timeout ≤ passDur + retryDelay) :
    (measureUntil events (r :: rest) timeout retryDelay passDur =
        some (MUResult.success passDur timings)) ↔
      (specConditionA events timings = true ∨ specConditionB events timings = true) := by
  have hprov : ∀ t ∈ timings, t.event ∈ events := by
    intro t ht
    rw [← hre]
    exact measure?_out_event hr t ht
  have hdone := donePredicate_iff_spec events timings hprov hnodup hcount
  unfold measureUntil
  rw [measureUntilAux_step (by omega) hr]
  by_cases hd : donePredicate events timings = true
  · rw [if_pos hd]
    simp only [zero_add]
    exact ⟨fun _ => hdone.mp hd, fun _ => trivial⟩
  · rw [if_neg hd]
    rw [measureUntilAux_timedOut (by omega)]
    constructor
    · intro hcontra
      simp at hcontra
    · intro hspec
      exact absurd (hdone.mpr hspec) hd

theorem measureUntilAux_timedOut_inv (events : List Event) (timeout rd pd : Int) :
    ∀ (rounds : List PassInput) (clock : Int) (last : Option (List Timing))
      (el : Int) (tp : Bool) (names : List String) (timings : List Timing),
      measureUntilAux events timeout rd pd rounds clock last =
        some (MUResult.timedOut el tp names timings) →
      ((∃ k r, rounds.get? k = some r ∧ measure? r = some timings ∧
          el = clock + ((k : Int) + 1) * (pd + rd)) ∨
        (last = some timings ∧ el = clock)) ∧
      tp = decide (0 < terminalEvents events) ∧
      names = unmeasuredNames events timings := by
  intro rounds
  induction rounds with
  | nil =>
    intro clock last el tp names timings h
    by_cases hc : timeout ≤ clock
    · rw [measureUntilAux_timedOut hc] at h
      cases last with
      | none => simp at h
      | some t =>
        simp only [Option.some_inj, MUResult.timedOut.injEq] at h
        obtain ⟨hel, htp, hnames, ht⟩ := h
        subst ht
        exact ⟨Or.inr ⟨rfl, hel.symm⟩, htp.symm, hnames.symm⟩
    · unfold measureUntilAux at h
      rw [if_neg hc] at h
      simp at h
  | cons r rest ih =>
    intro clock last el tp names timings h
    by_cases hc : timeout ≤ clock
    · rw [measureUntilAux_timedOut hc] at h
      cases last with
      | none => simp at h
      | some t =>
        simp only [Option.some_inj, MUResult.timedOut.injEq] at h
        obtain ⟨hel, htp, hnames, ht⟩ := h
        subst ht
        exact ⟨Or.inr ⟨rfl, hel.symm⟩, htp.symm, hnames.symm⟩
    · cases hm : measure? r with
      | none =>
        rw [measureUntilAux_step_none hc hm] at h
        simp at h
      | some t =>
        rw [measureUntilAux_step hc hm] at h
        by_cases hd : donePredicate events t = true
        · rw [if_pos hd] at h
          simp at h
        · rw [if_neg hd] at h
          obtain ⟨hor, htp, hnames⟩ := ih _ _ _ _ _ _ h
          rcases hor with ⟨k, r', hk, hr'm, hel⟩ | ⟨hlast, hel⟩
          · refine ⟨Or.inl ⟨k + 1, r', by simpa using hk, hr'm, ?_⟩, htp, hnames⟩
            rw [hel]
            push_cast
            ring
          · have ht : t = timings := by simpa using hlast
            refine ⟨Or.inl ⟨0, r, rfl, by rw [hm, ht], ?_⟩, htp, hnames⟩
            rw [hel]
            push_cast
            ring

theorem measureUntil_timedOut_inv {events : List Event} {rounds : List PassInput}
    {timeout rd pd el : Int} {tp : Bool} {names : List String} {timings : List Timing}
    (h : measureUntil events rounds timeout rd pd =
      some (MUResult.timedOut el tp names timings)) :
    (∃ k r, rounds.get? k = some r ∧ measure? r = some timings ∧
      el = ((k : Int) + 1) * (pd + rd)) ∧
    tp = decide (0 < terminalEvents events) ∧
    names = unmeasuredNames events timings := by
  obtain ⟨hor, htp, hnames⟩ :=
    measureUntilAux_timedOut_inv events timeout rd pd rounds 0 none el tp names timings h
  rcases hor with ⟨k, r, hk, hm, hel⟩ | ⟨hlast, _⟩
  · exact ⟨⟨k, r, hk, hm, by rw [hel]; ring⟩, htp, hnames⟩
  · simp at hlast

theorem mem_unmeasuredNames_iff {events : List Event} {timings : List Timing}
    (hnodup : (events.map fun e => e.name).Nodup) {e : Event} (he : e ∈ events) :
    e.name ∈ unmeasuredNames events timings ↔
      ((0 < terminalEvents events → e.terminal = true) ∧ timingsNamed timings e = 0) := by
  have hinj : ∀ e' ∈ events, e'.name = e.name → e' = e := by
    intro e' he' hname
    exact List.inj_on_of_nodup_map hnodup he' he hname
  unfold unmeasuredNames
  by_cases hte : 0 < terminalEvents events
  · rw [if_pos hte, List.mem_map]
    constructor
    · rintro ⟨e', he'f, hname⟩
      rcases List.mem_filter.mp he'f with ⟨he'mem, hp⟩
      have heq := hinj e' he'mem hname
      subst heq
      have hp' : e'.terminal = true ∧ (timingsNamed timings e' == 0) = true := by
        simpa using hp
      exact ⟨fun _ => hp'.1, by simpa using hp'.2⟩
    · rintro ⟨hterm, hcount⟩
      refine ⟨e, List.mem_filter.mpr ⟨he, ?_⟩, rfl⟩
      simp [hterm hte, hcount]
  · rw [if_neg hte, List.mem_map]
    constructor
    · rintro ⟨e', he'f, hname⟩
      rcases List.mem_filter.mp he'f with ⟨he'mem, hp⟩
      have heq := hinj e' he'mem hname
      subst heq
      exact ⟨fun h => absurd h hte, by simpa using hp⟩
    · rintro ⟨_, hcount⟩
      exact ⟨e, List.mem_filter.mpr ⟨he, by simpa using hcount⟩, rfl⟩

theorem measureUntil_sleeps_past_timeout (events : List Event) (r : PassInput)
    (rest : List PassInput) (timings : List Timing) (timeout retryDelay passDur : Int)
    (hm : measure? r = some timings) (hnd : donePredicate events timings = false)
    (h0 : 0 < timeout) (hto : timeout ≤ passDur + retryDelay) :
    measureUntil events (r :: rest) timeout retryDelay passDur =
      some (MUResult.timedOut (passDur + retryDelay)
        (decide (0 < terminalEvents events)) (unmeasuredNames events timings) timings) := by
  unfold measureUntil
  rw [measureUntilAux_step (by omega) hm, if_neg (by simp [hnd])]
  rw [measureUntilAux_timedOut (by omega)]
  simp

theorem registerEventsAux (evs : List Event) :
    ∀ (m0 : Measurer) (errs0 : List String),
      ((evs.foldl registerStep (m0, errs0)).1.sources = m0.sources) ∧
      ((evs.foldl registerStep (m0, errs0)).1.events =
        m0.events ++ evs.filterMap fun e => (GetSource m0 e.srcName).map fun s => (e, s)) ∧
      ((evs.foldl registerStep (m0, errs0)).2 =
        errs0 ++ (evs.filter fun e => (GetSource m0 e.srcName).isNone).map registerErrMsg) := by
  induction evs with
  | nil => intro m0 errs0; exact ⟨rfl, by simp, by simp⟩
  | cons e es ih =>
    intro m0 errs0
    simp only [List.foldl_cons]
    cases hs : GetSource m0 e.srcName with
    | none =>
      have hstep : registerStep (m0, errs0) e = (m0, errs0 ++ [registerErrMsg e]) := by
        unfold registerStep
        rw [show GetSource (m0, errs0).1 e.srcName = GetSource m0 e.srcName from rfl, hs]
      rw [hstep]
      obtain ⟨ih1, ih2, ih3⟩ := ih m0 (errs0 ++ [registerErrMsg e])
      refine ⟨ih1, ?_, ?_⟩
      · rw [ih2, List.filterMap_cons]
        simp [hs]
      · rw [ih3, List.filter_cons]
        simp [hs]
    | some s =>
      have hstep : registerStep (m0, errs0) e =
          ({ m0 with events := m0.events ++ [(e, s)] }, errs0) := by
        unfold registerStep
        rw [show GetSource (m0, errs0).1 e.srcName = GetSource m0 e.srcName from rfl, hs]
      rw [hstep]
      obtain ⟨ih1, ih2, ih3⟩ := ih { m0 with events := m0.events ++ [(e, s)] } errs0
      have hg : ∀ x, GetSource { m0 with events := m0.events ++ [(e, s)] } x =
          GetSource m0 x := fun _ => rfl
      refine ⟨ih1, ?_, ?_⟩
      · rw [ih2]
        simp only [hg]
        rw [List.filterMap_cons]
        simp [hs]
      · rw [ih3]
        simp only [hg]
        rw [List.filter_cons]
        simp [hs]

theorem registerEvents_components (m : Measurer) (evs : List Event) :
    (RegisterEvents m evs).1.sources = m.sources ∧
    ((RegisterEvents m evs).1.events =
      m.events ++ evs.filterMap fun e => (GetSource m e.srcName).map fun s => (e, s)) ∧
    ((RegisterEvents m evs).2 =
      (evs.filter fun e => (GetSource m e.srcName).isNone).map registerErrMsg) := by
  obtain ⟨h1, h2, h3⟩ := registerEventsAux evs m []
  exact ⟨h1, h2, by simpa using h3⟩

theorem MeasureM_out_event {m : Measurer} {out : List Timing}
    (h : MeasureM m = some out) : ∀ t ∈ out, t.event ∈ m.events.map Prod.fst := by
  intro t ht
  have := measure?_out_event h t ht
  simpa [List.map_map, Function.comp] using this

theorem pairwise_le_head {l : List FindResult}
    (h : l.Pairwise fun a b => a.timestamp ≤ b.timestamp) :
    ∀ r ∈ l, l.headI.timestamp ≤ r.timestamp := by
  cases l with
  | nil => simp
  | cons x xs =>
    intro r hr
    rcases List.mem_cons.mp hr with rfl | hr
    · exact le_refl _
    · exact (List.pairwise_cons.mp h).1 r hr

theorem pairwise_le_getLastI {l : List FindResult} (hne : l ≠ [])
    (h : l.Pairwise fun a b => a.timestamp ≤ b.timestamp) :
    ∀ r ∈ l, r.timestamp ≤ l.getLastI.timestamp := by
  intro r hr
  rw [List.getLastI_eq_getLast?, List.getLast?_eq_getLast_of_ne_nil hne, Option.iget_some,
    List.getLast_eq_getElem]
  rcases List.mem_iff_getElem.mp hr with ⟨k, hk, rfl⟩
  rw [List.pairwise_iff_getElem] at h
  rcases Nat.lt_or_ge k (l.length - 1) with hlt | hge
  · exact h k (l.length - 1) hk (by omega) hlt
  · have hkeq : k = l.length - 1 := by omega
    subst hkeq
    exact le_refl _

theorem c6_core (results : List FindResult)
    (hN : 1 < results.length)
    (hsorted : results.Pairwise fun a b => a.timestamp ≤ b.timestamp) :
    SelectMatches results EventMatchSelectorFirst = [results.headI] ∧
    (∀ r ∈ results, results.headI.timestamp ≤ r.timestamp) ∧
    SelectMatches results EventMatchSelectorLast = [results.getLastI] ∧
    (∀ r ∈ results, r.timestamp ≤ results.getLastI.timestamp) ∧
    SelectMatches results EventMatchSelectorAll = results ∧
    ∀ sel, SelectMatches [] sel = [] := by
  have hne : results ≠ [] := by
    intro h
    rw [h] at hN
    simp at hN
  obtain ⟨a, l, rfl⟩ : ∃ a l, results = a :: l := by
    cases results with
    | nil => exact absurd rfl hne
    | cons a l => exact ⟨a, l, rfl⟩
  exact ⟨rfl, pairwise_le_head hsorted, rfl, pairwise_le_getLastI hne hsorted, rfl,
    fun sel => rfl⟩

theorem c9_core (m : Measurer) (evs : List Event) (e : Event)
    (he : e ∈ evs) (hmiss : GetSource m e.srcName = none)
    (hnotin : ∀ p ∈ m.events, p.1 ≠ e) :
    (RegisterEvents m evs).2 ≠ [] ∧
    registerErrMsg e ∈ (RegisterEvents m evs).2 ∧
    (∀ p ∈ (RegisterEvents m evs).1.events, p.1 ≠ e) ∧
    (∀ e2 ∈ evs, ∀ s, GetSource m e2.srcName = some s →
      (e2, s) ∈ (RegisterEvents m evs).1.events) ∧
    (∀ out, MeasureM (RegisterEvents m evs).1 = some out → ∀ t ∈ out, t.event ≠ e) := by
  obtain ⟨hsrc, hevents, herrs⟩ := registerEvents_components m evs
  have hmem_err : registerErrMsg e ∈ (RegisterEvents m evs).2 := by
    rw [herrs]
    exact List.mem_map.mpr ⟨e, List.mem_filter.mpr ⟨he, by simp [hmiss]⟩, rfl⟩
  have hnotin' : ∀ p ∈ (RegisterEvents m evs).1.events, p.1 ≠ e := by
    intro p hp
    rw [hevents] at hp
    rcases List.mem_append.mp hp with hp | hp
    · exact hnotin p hp
    · rcases List.mem_filterMap.mp hp with ⟨a, ha, hfa⟩
      cases hga : GetSource m a.srcName with
      | none =>
        rw [hga] at hfa
        simp at hfa
      | some s =>
        rw [hga] at hfa
        simp only [Option.map_some', Option.some_inj] at hfa
        subst hfa
        intro hcontra
        rw [show ((a, s) : Event × SourceM).1 = a from rfl] at hcontra
        rw [hcontra] at hga
        rw [hga] at hmiss
        exact Option.noConfusion hmiss
  refine ⟨?_, hmem_err, hnotin', ?_, ?_⟩
  · intro hnil
    rw [hnil] at hmem_err
    exact absurd hmem_err (List.not_mem_nil _)
  · intro e2 he2 s hs
    rw [hevents]
    refine List.mem_append.mpr (Or.inr ?_)
    exact List.mem_filterMap.mpr ⟨e2, he2, by rw [hs]; rfl⟩
  · intro out hout t ht hcontra
    have hmem := MeasureM_out_event hout t ht
    rcases List.mem_map.mp hmem with ⟨p, hp, hpe⟩
    exact hnotin' p hp (by rw [hpe, hcontra])

/-- Sanity check of the modelling split: on every concrete pass used
below (all within Go's 12-element insertion-sort cutoff), `Measure`
with the exact runtime sort (`measureGo?`) computes the same measurement
as `Measure` with the stable sorted-permutation model (`measure?`). -/
theorem goSort_agrees_on_concrete_passes :
    measureGo? c1CexInput = measure? c1CexInput ∧
    measureGo? c1WitnessInput = measure? c1WitnessInput ∧
    measureGo? c2WitnessInput = measure? c2WitnessInput ∧
    measureGo? c3WitnessInput = measure? c3WitnessInput ∧
    measureGo? c4Input = measure? c4Input ∧
    measureGo? c5CexRound = measure? c5CexRound ∧
    measureGo? c5WitRound = measure? c5WitRound ∧
    measureGo? c7CexRound = measure? c7CexRound ∧
    measureGo? c7WitRound = measure? c7WitRound ∧
    measureGo? c8Round = measure? c8Round ∧
    measureGo? c10Input = measure? c10Input := by
  decide

/-- Claim C1, counterexample to the claim as stated: in the pass
`c1CexInput`, the errored timing at position 0 is sorted before the anchor
(position 1), yet its relative offset is 0, not negative — the claim's
"offsets of Timings sorted before the anchor are negative" fails at an
equal-timestamp tie. -/
theorem c1_counterexample :
    (measure? c1CexInput).isSome = true ∧
    anchorIdx ((measure? c1CexInput).getD []) = 1 ∧
    (((measure? c1CexInput).getD []).getD 0 default).error ≠ none ∧
    ¬(((measure? c1CexInput).getD []).getD 0 default).t < 0 := by
  decide

/-- Claim C1 (amended): for every measurement a `Measure` pass returns,
the anchor is the first error-free timing in sort order (or the very first
timing when every timing errs), every timing's offset `T` equals its
timestamp minus the anchor's, the anchor's own offset is zero, and every
timing sorted before the anchor carries an error and has a non-positive
offset — negative exactly when its timestamp is strictly below the
anchor's (a tie gives offset zero, which is why the original "negative"
is amended to "non-positive"). -/
theorem c1_amended {evs : PassInput} {out : List Timing}
    (h : measure? evs = some out) : C1Prop out :=
  measure_anchor_core h

/-- Witness for `c1_amended` at the concrete pass `c1WitnessInput`. -/
theorem c1_amended_witness :
    measure? c1WitnessInput = some c1WitnessOut ∧ C1Prop c1WitnessOut :=
  ⟨by decide, c1_amended
    (show measure? c1WitnessInput = some c1WitnessOut by decide)⟩

/-- Claim C2, counterexample to the claim as stated: running the pass
`c2CexInput` through `Measure` with Go 1.19's exact `sort.Slice`
(pdqsort) yields a list that is sorted by timestamp but whose
equal-timestamp timings are NOT in registration order: the timing of `e6`
surfaces before `e2`..`e5`, and `e1`'s timing precedes `e0`'s —
`sort.Slice` is not stable, refuting the claimed registration-order
tie-break. -/
theorem c2_counterexample :
    c2CexOut.map (fun t => t.event.name) =
      ["e6", "e2", "e3", "e4", "e5", "e7", "e8", "e9", "e10", "e11", "e12", "e1", "e0"] ∧
    List.Pairwise tsLe c2CexOut ∧
    ¬stableTieBreak (rawTimings c2CexInput) c2CexOut := by
  refine ⟨by decide, by decide, by decide⟩

/-- Claim C2 (amended): the timing list a `Measure` pass returns is
sorted non-decreasing by absolute timestamp; the relative order of
equal-timestamp timings is unspecified (`sort.Slice` is not stable, see
`c2_counterexample`). -/
theorem c2_amended {evs : PassInput} {out : List Timing}
    (h : measure? evs = some out) : out.Pairwise tsLe :=
  measure_output_sorted h

/-- Witness for `c2_amended` at the concrete pass `c2WitnessInput`. -/
theorem c2_amended_witness :
    measure? c2WitnessInput = some c2WitnessOut ∧ List.Pairwise tsLe c2WitnessOut :=
  ⟨by decide, c2_amended
    (show measure? c2WitnessInput = some c2WitnessOut by decide)⟩

/-- Claim C3 (confirmed): in every `Measure` pass in which at least one
produced timing's event is terminal, the returned list ends at (and
includes) the last terminal timing — it is the truncation of the sorted
list at the last terminal index, its final element is terminal, and no
timing in it has an absolute timestamp later than that final terminal
timing's. -/
theorem c3_truncation {evs : PassInput} {out : List Timing}
    (h : measure? evs = some out)
    (hterm : ∃ t ∈ rawTimings evs, t.event.terminal = true) : C3Prop evs out :=
  measure_truncates_at_terminal h hterm

/-- Witness for `c3_truncation` at the spec's own scenario
`c3WitnessInput` (events at 5, terminal at 10, stale at 20). -/
theorem c3_truncation_witness :
    measure? c3WitnessInput = some c3WitnessOut ∧
    (∃ t ∈ rawTimings c3WitnessInput, t.event.terminal = true) ∧
    C3Prop c3WitnessInput c3WitnessOut :=
  ⟨by decide, by decide, c3_truncation (by decide) (by decide)⟩

/-- Claim C4 (code bug): at the failing input `c4Input`, whose first
event's `Find` fails at source level with zero results, the pass is not
aborted but the returned Measurement contains NO timing for that event —
the error is silently dropped, because `Measure`'s
`if len(results) == 0` arm (latency.go:211-213) re-assigns an empty slice
instead of the one-element placeholder `[]sources.FindResult{{}}` the
claim (and §7 of the spec) describes.  When only such failing events are
registered, the pass even panics (`measure?` returns `none`) instead of
reporting the errors. -/
theorem c4_error_timing_dropped :
    (measure? c4Input).isSome = true ∧
    timingsNamed ((measure? c4Input).getD []) (mkEvent "VM Initialized" false) = 0 ∧
    measure? [(mkEvent "VM Initialized" false,
      ([], some "unable to find log file /var/log/messages*"))] = none := by
  decide

/-- Claim C5, counterexample to the claim as stated: one registered
terminal event with selector `all` yields two error-free timings in the
pass `c5CexRound`; spec condition A holds (every terminal event has an
error-free timing), yet `MeasureUntil` does not return success — it
compares the COUNT of error-free terminal timings (2) with the count of
terminal events (1) and times out. -/
theorem c5_counterexample :
    measure? c5CexRound = some c5CexOut ∧
    specConditionA [c5CexEvent] c5CexOut = true ∧
    measureUntil [c5CexEvent] [c5CexRound] 1 1 0 =
      some (MUResult.timedOut 1 true [] c5CexOut) := by
  decide

/-- Claim C5 (amended): when every registered event contributes at most
one timing to the pass (always true for selectors `first`/`last`) and
event names are unique, `MeasureUntil` returns successfully after the
pass if and only if condition A (terminal events exist and each has an
error-free timing) or condition B (no terminal events and every event has
an error-free timing) holds. -/
theorem c5_amended (events : List Event) (r : PassInput) (rest : List PassInput)
    (timings : List Timing) (timeout retryDelay passDur : Int)
    (hre : r.map Prod.fst = events)
    (hr : measure? r = some timings)
    (hnodup : (events.map fun e => e.name).Nodup)
    (hcount : ∀ e ∈ events, timingsNamed timings e ≤ 1)
    (h0 : 0 < timeout) (hto : timeout ≤ passDur + retryDelay) :
    (measureUntil events (r :: rest) timeout retryDelay passDur =
        some (MUResult.success passDur timings)) ↔
      (specConditionA events timings = true ∨ specConditionB events timings = true) :=
  measureUntil_success_iff events r rest timings timeout retryDelay passDur
    hre hr hnodup hcount h0 hto

/-- Witness for `c5_amended` at the single-terminal-event round
`c5WitRound`. -/
theorem c5_amended_witness :
    (c5WitRound.map Prod.fst = [c5WitEvent] ∧
      measure? c5WitRound = some c5WitOut ∧
      ([c5WitEvent].map fun e => e.name).Nodup ∧
      (∀ e ∈ [c5WitEvent], timingsNamed c5WitOut e ≤ 1) ∧
      (0 : Int) < 1 ∧ (1 : Int) ≤ 0 + 1) ∧
    ((measureUntil [c5WitEvent] [c5WitRound] 1 1 0 =
        some (MUResult.success 0 c5WitOut)) ↔
      (specConditionA [c5WitEvent] c5WitOut = true ∨
        specConditionB [c5WitEvent] c5WitOut = true)) :=
  ⟨⟨by decide, by decide, by decide, by decide, by decide, by decide⟩,
    c5_amended [c5WitEvent] c5WitRound [] c5WitOut 1 1 0 (by decide) (by decide)
      (by decide) (by decide) (by decide) (by decide)⟩

/-- Claim C6 (confirmed): on a sorted list of more than one raw result,
selection policy `first` keeps exactly the earliest result, `last` keeps
exactly the latest, `all` keeps all of them, and on an empty input every
policy yields an empty output. -/
theorem c6_select_matches (results : List FindResult)
    (hN : 1 < results.length)
    (hsorted : results.Pairwise fun a b => a.timestamp ≤ b.timestamp) :
    SelectMatches results EventMatchSelectorFirst = [results.headI] ∧
    (∀ r ∈ results, results.headI.timestamp ≤ r.timestamp) ∧
    SelectMatches results EventMatchSelectorLast = [results.getLastI] ∧
    (∀ r ∈ results, r.timestamp ≤ results.getLastI.timestamp) ∧
    SelectMatches results EventMatchSelectorAll = results ∧
    ∀ sel, SelectMatches [] sel = [] :=
  c6_core results hN hsorted

/-- Witness for `c6_select_matches` on three sorted results. -/
theorem c6_select_matches_witness :
    (1 < c6WitnessResults.length ∧
      c6WitnessResults.Pairwise fun a b => a.timestamp ≤ b.timestamp) ∧
    (SelectMatches c6WitnessResults EventMatchSelectorFirst = [c6WitnessResults.headI] ∧
      (∀ r ∈ c6WitnessResults, c6WitnessResults.headI.timestamp ≤ r.timestamp) ∧
      SelectMatches c6WitnessResults EventMatchSelectorLast = [c6WitnessResults.getLastI] ∧
      (∀ r ∈ c6WitnessResults, r.timestamp ≤ c6WitnessResults.getLastI.timestamp) ∧
      SelectMatches c6WitnessResults EventMatchSelectorAll = c6WitnessResults ∧
      ∀ sel, SelectMatches [] sel = []) :=
  ⟨⟨by decide, by decide⟩, c6_select_matches c6WitnessResults (by decide) (by decide)⟩

/-- Claim C7, counterexample to the claim as stated: the terminal event
`c7CexEvent` never gets an error-free timing (its timestamp never
parses), so on timeout the claim requires the error to name it; but the
code names only events with NO timing at all — the errored timing counts,
and the reported list is empty. -/
theorem c7_counterexample :
    measureUntil [c7CexEvent] [c7CexRound] 1 1 0 =
      some (MUResult.timedOut 1 true [] c7CexOut) ∧
    eventHasErrorFreeTiming c7CexOut c7CexEvent = false := by
  decide

/-- Claim C7 (amended): when `MeasureUntil` exhausts its timeout, the
returned error names exactly the registered events with NO timing at all
(of any error status) in the last pass's Measurement — the terminal ones
if any terminal events are registered, otherwise all registered events —
and that Measurement is returned alongside the error: it is the
measurement of pass `k`, where the elapsed time at return equals
`(k + 1) * (passDur + retryDelay)`, i.e. of the final executed pass. -/
theorem c7_amended {events : List Event} {rounds : List PassInput}
    {timeout rd pd el : Int} {tp : Bool} {names : List String} {timings : List Timing}
    (hnodup : (events.map fun e => e.name).Nodup)
    (h : measureUntil events rounds timeout rd pd =
      some (MUResult.timedOut el tp names timings)) :
    (∃ k r, rounds.get? k = some r ∧ measure? r = some timings ∧
      el = ((k : Int) + 1) * (pd + rd)) ∧
    tp = decide (0 < terminalEvents events) ∧
    ∀ e ∈ events, (e.name ∈ names ↔
      ((0 < terminalEvents events → e.terminal = true) ∧ timingsNamed timings e = 0)) := by
  obtain ⟨hex, htp, hnames⟩ := measureUntil_timedOut_inv h
  subst hnames
  exact ⟨hex, htp, fun e he => mem_unmeasuredNames_iff hnodup he⟩

/-- Witness for `c7_amended`: the timeout error names exactly the
terminal event whose find produced nothing. -/
theorem c7_amended_witness :
    ((c7WitEvents.map fun e => e.name).Nodup ∧
      measureUntil c7WitEvents [c7WitRound] 1 1 0 =
        some (MUResult.timedOut 1 true ["Node Ready"] c7WitOut)) ∧
    ((∃ k r, [c7WitRound].get? k = some r ∧ measure? r = some c7WitOut ∧
        (1 : Int) = ((k : Int) + 1) * (0 + 1)) ∧
      true = decide (0 < terminalEvents c7WitEvents) ∧
      ∀ e ∈ c7WitEvents, (e.name ∈ ["Node Ready"] ↔
        ((0 < terminalEvents c7WitEvents → e.terminal = true) ∧
          timingsNamed c7WitOut e = 0))) :=
  ⟨⟨by decide, by decide⟩, c7_amended
    (show (c7WitEvents.map fun e => e.name).Nodup by decide)
    (show measureUntil c7WitEvents [c7WitRound] 1 1 0 =
      some (MUResult.timedOut 1 true ["Node Ready"] c7WitOut) by decide)⟩

/-- Claim C8, counterexample to the claim as stated: with timeout 1000
(one second, in milliseconds), retry delay 10000 and an instantaneous
pass over the perpetually unresolvable event `c8Event`, `MeasureUntil`
returns at model clock 10000 — after the full ten-second retry sleep, not
at the one-second timeout (`¬10000 ≤ 1000`) — and its error names no
event, because the unresolvable event does have an (errored) timing. -/
theorem c8_counterexample :
    measureUntil [c8Event] [c8Round, c8Round] 1000 10000 0 =
      some (MUResult.timedOut 10000 false [] c8Out) ∧
    ¬((10000 : Int) ≤ 1000) := by
  decide

/-- Claim C8 (amended): the elapsed-time bound is checked only at the top
of the loop, after the inter-attempt sleep has completed; whenever the
first pass does not complete and the timeout does not outlast one pass
plus one sleep, `MeasureUntil` returns the timeout error only at elapsed
time `passDur + retryDelay` — one full retry delay past the start — never
at the timeout instant. -/
theorem c8_amended (events : List Event) (r : PassInput) (rest : List PassInput)
    (timings : List Timing) (timeout retryDelay passDur : Int)
    (hm : measure? r = some timings) (hnd : donePredicate events timings = false)
    (h0 : 0 < timeout) (hto : timeout ≤ passDur + retryDelay) :
    measureUntil events (r :: rest) timeout retryDelay passDur =
      some (MUResult.timedOut (passDur + retryDelay)
        (decide (0 < terminalEvents events)) (unmeasuredNames events timings) timings) :=
  measureUntil_sleeps_past_timeout events r rest timings timeout retryDelay passDur
    hm hnd h0 hto

/-- Witness for `c8_amended` at the C8 scenario (timeout 1000, delay
10000, instantaneous passes). -/
theorem c8_amended_witness :
    (measure? c8Round = some c8Out ∧
      donePredicate [c8Event] c8Out = false ∧
      (0 : Int) < 1000 ∧ (1000 : Int) ≤ 0 + 10000) ∧
    measureUntil [c8Event] [c8Round, c8Round] 1000 10000 0 =
      some (MUResult.timedOut (0 + 10000)
        (decide (0 < terminalEvents [c8Event]))
        (unmeasuredNames [c8Event] c8Out) c8Out) :=
  ⟨⟨by decide, by decide, by decide, by decide⟩,
    c8_amended [c8Event] c8Round [c8Round] c8Out 1000 10000 0
      (by decide) (by decide) (by decide) (by decide)⟩

/-- Claim C9 (confirmed): registering an event whose source name is not
registered makes `RegisterEvents` return a non-nil aggregate error
containing that event's message; the event is not appended to the event
list, it is absent from every subsequent `Measure` output, and every
other event whose source is registered is still registered. -/
theorem c9_register_missing_source (m : Measurer) (evs : List Event) (e : Event)
    (he : e ∈ evs) (hmiss : GetSource m e.srcName = none)
    (hnotin : ∀ p ∈ m.events, p.1 ≠ e) :
    (RegisterEvents m evs).2 ≠ [] ∧
    registerErrMsg e ∈ (RegisterEvents m evs).2 ∧
    (∀ p ∈ (RegisterEvents m evs).1.events, p.1 ≠ e) ∧
    (∀ e2 ∈ evs, ∀ s, GetSource m e2.srcName = some s →
      (e2, s) ∈ (RegisterEvents m evs).1.events) ∧
    (∀ out, MeasureM (RegisterEvents m evs).1 = some out → ∀ t ∈ out, t.event ≠ e) :=
  c9_core m evs e he hmiss hnotin

/-- Witness for `c9_register_missing_source`: registering a good event and
an event bound to the unregistered source `X` on a measurer that only
knows the `Messages` source. -/
theorem c9_register_missing_source_witness :
    (c9BadEvent ∈ [c9GoodEvent, c9BadEvent] ∧
      GetSource c9M c9BadEvent.srcName = none ∧
      (∀ p ∈ c9M.events, p.1 ≠ c9BadEvent)) ∧
    ((RegisterEvents c9M [c9GoodEvent, c9BadEvent]).2 ≠ [] ∧
      registerErrMsg c9BadEvent ∈ (RegisterEvents c9M [c9GoodEvent, c9BadEvent]).2 ∧
      (∀ p ∈ (RegisterEvents c9M [c9GoodEvent, c9BadEvent]).1.events, p.1 ≠ c9BadEvent) ∧
      (∀ e2 ∈ [c9GoodEvent, c9BadEvent], ∀ s, GetSource c9M e2.srcName = some s →
        (e2, s) ∈ (RegisterEvents c9M [c9GoodEvent, c9BadEvent]).1.events) ∧
      (∀ out, MeasureM (RegisterEvents c9M [c9GoodEvent, c9BadEvent]).1 = some out →
        ∀ t ∈ out, t.event ≠ c9BadEvent)) :=
  ⟨⟨by decide, by rfl, fun p hp => absurd hp (List.not_mem_nil p)⟩,
    c9_register_missing_source c9M [c9GoodEvent, c9BadEvent] c9BadEvent
      (by decide) (by rfl) (fun p hp => absurd hp (List.not_mem_nil p))⟩

/-- Claim C10 (confirmed, implicit): `Measure` indexes `timings[0]` while
choosing the anchor, so the pass is only defined when it yields at least
one timing; whenever every registered event's find yields zero results —
in particular when no events are registered or every source errors with
no results — the collected timing list is empty and the call panics
(`none` in the model) instead of returning an empty Measurement. -/
theorem c10_measure_panics (evs : PassInput) :
    ((∀ p ∈ evs, p.2.1 = []) → measure? evs = none) ∧
    (measure? evs = none ↔ rawTimings evs = []) :=
  measure_panics_on_empty evs

/-- Witness for `c10_measure_panics`: both events' finds yield nothing
(one with a source-level error, one with a clean no-match), and the pass
panics. -/
theorem c10_measure_panics_witness :
    (∀ p ∈ c10Input, p.2.1 = []) ∧ measure? c10Input = none :=
  ⟨by decide, (c10_measure_panics c10Input).1 (by decide)⟩

end NLK
